import Mathlib

/-!
Shallow embedding of the recursive-descent parser of the Compiler-Project
repository (src/Parser.cpp, src/AST.h) together with the token-source
contract it consumes.  The parser routines are translated one-to-one from
`Parser.cpp`; while-loops become fuel-indexed recursive helpers.  The
token-source primitives (`advance`, `expect`, `consume`, `error`, cursor
snapshot/restore) live in the absent header `Parser.h` and are modelled
from the spec (sections 4.1, 6 and 7).
-/

namespace CompilerProj

/-- Token kinds, from the token-source boundary (spec section 6) and the
`Token::` kinds referenced throughout `Parser.cpp`. -/
inductive TokenKind where
  | eoi
  | ident
  | number
  | comma
  | semicolon
  | colon
  | plus
  | minus
  | star
  | slash
  | mod
  | exp
  | l_paren
  | r_paren
  | assign
  | plus_assign
  | minus_assign
  | star_assign
  | slash_assign
  | plus_plus
  | minus_minus
  | eq
  | neq
  | gt
  | lt
  | gte
  | lte
  | KW_int
  | KW_bool
  | KW_true
  | KW_false
  | KW_and
  | KW_or
  | KW_if
  | KW_elif
  | KW_else
  | KW_while
  | KW_for
  | KW_print
  | KW_begin
  | KW_end
  | KW_loopc
deriving DecidableEq

/-- A classified token: kind plus text slice (positions are irrelevant to the
parse result and omitted). -/
structure Token where
  kind : TokenKind
  text : String
deriving DecidableEq

/-- The end-of-input sentinel token the token source yields forever once the
stream is exhausted. -/
def eoiTok : Token := ⟨.eoi, ""⟩

/-- Modelled from the spec (section 4.1, `Parser.h` absent from the
repository): the parser's view of the token source is a cursor `pos` over the
immutable token sequence `toks`, plus the count of emitted diagnostics, the
process-wide `haveElse` flag of `Parser.cpp` line 3, and a marker `fuelOut`
that records that a fuel-indexed loop ran out of fuel (never happens with
sufficient fuel; lets theorems exclude that artificial case). -/
structure PState where
  toks : List Token
  pos : Nat
  diags : Nat
  haveElse : Bool
  fuelOut : Bool
deriving DecidableEq

/-- Current token (`Tok`): the token at the cursor, or the end-of-input
sentinel past the end. -/
def curTok (st : PState) : Token := (st.toks.drop st.pos).headD eoiTok

/-- Modelled from the spec (section 4.1): `advance()` moves the cursor one
token forward; at end-of-input the sentinel persists. -/
def advance (st : PState) : PState := { st with pos := st.pos + 1 }

/-- Modelled from the spec (section 6): `error()` reports one diagnostic to
the external reporting collaborator; only the count is observable here. -/
def error (st : PState) : PState := { st with diags := st.diags + 1 }

/-- Number of advances the panic loop `while (Tok.getKind() != Token::eoi)
advance();` performs from the front of a token list. -/
def eoiSteps : List Token → Nat
  | [] => 0
  | t :: ts => if t.kind = .eoi then 0 else eoiSteps ts + 1

/-- The panic-mode recovery loop shared by every `_error` label of
`Parser.cpp`: discard tokens until the end-of-input sentinel. -/
def skipToEoi (st : PState) : PState :=
  { st with pos := st.pos + eoiSteps (st.toks.drop st.pos) }

/-- State marker for fuel exhaustion of a loop helper. -/
def fuelFail (st : PState) : PState := { st with fuelOut := true }

/-- Modelled from the spec (sections 4.1 and 7, `Parser.h` absent):
`expect(kind)` checks the current token, emitting one `UnexpectedToken`
diagnostic and answering `true` on mismatch, without advancing. -/
def expect (k : TokenKind) (st : PState) : Bool × PState :=
  if (curTok st).kind = k then (false, st) else (true, error st)

/-- Modelled from the spec (section 4.1, `Parser.h` absent): `consume(kind)`
is `expect` followed by `advance` on success; answers `true` on mismatch. -/
def consume (k : TokenKind) (st : PState) : Bool × PState :=
  match expect k st with
  | (true, st') => (true, st')
  | (false, st') => (false, advance st')

/-! ## AST node model (from `AST.h`) -/

/-- Enumeration `Final::ValueKind` of `AST.h`. -/
inductive FinalKind where
  | Ident
  | Number
  | True
  | False
deriving DecidableEq

/-- Enumeration `BinaryOp::Operator` of `AST.h`. -/
inductive BinOp where
  | Plus
  | Minus
  | Mul
  | Div
  | Mod
  | Exp
deriving DecidableEq

/-- Enumeration `UnaryOp::Operator` of `AST.h`. -/
inductive UnaryKind where
  | Plus_plus
  | Minus_minus
deriving DecidableEq

/-- Enumeration `SignedNumber::Sign` of `AST.h`. -/
inductive SignKind where
  | Plus
  | Minus
deriving DecidableEq

/-- Expression nodes: `Final`, `BinaryOp`, `UnaryOp`, `SignedNumber` and
`NegExpr` of `AST.h` (the `NegExpr` constructor is misspelled `SignedNumber`
in the header; the intended node wraps one expression). -/
inductive Expr where
  | final (kind : FinalKind) (val : String)
  | binary (op : BinOp) (left right : Expr)
  | unary (op : UnaryKind) (ident : String)
  | signed (sign : SignKind) (value : String)
  | neg (e : Expr)
deriving DecidableEq

/-- Enumeration `Comparison::Operator` of `AST.h`. -/
inductive CompOp where
  | Equal
  | Not_equal
  | Greater
  | Less
  | Greater_equal
  | Less_equal
  | True
  | False
  | Ident
deriving DecidableEq

/-- The `Comparison` node of `AST.h`: optional operand pointers, the stored
operator field `Op`, and the text `Value`.  The stored operator is an
`Option` because the constructor leaves it without a defined value (see
`mkComparison`). -/
structure ComparisonNode where
  left : Option Expr
  right : Option Expr
  op : Option CompOp
  value : String
deriving DecidableEq

/-- Embeds the constructor `Comparison(Expr *L, Expr *R, Operator Opm,
llvm::StringRef V)` of `AST.h` line 316: its member initializer list reads
`Op(Op)`, initializing the member `Op` from itself, so the `Opm` parameter is
never stored and the operator member holds an indeterminate value, modelled
as `none`. -/
def mkComparison (l r : Option Expr) (opm : CompOp) (v : String) : ComparisonNode :=
  ⟨l, r, none, v⟩

/-- Enumeration `LogicalExpr::Operator` of `AST.h`. -/
inductive LogicOp where
  | And
  | Or
deriving DecidableEq

/-- Logic nodes: `Comparison` and `LogicalExpr` of `AST.h`. -/
inductive Logic where
  | cmp (c : ComparisonNode)
  | logical (left right : Logic) (op : LogicOp)
deriving DecidableEq

/-- Enumeration `Assignment::AssignKind` of `AST.h`. -/
inductive AssignKind where
  | Assign
  | Minus_assign
  | Plus_assign
  | Star_assign
  | Slash_assign
deriving DecidableEq

/-- The `Assignment` node: the left-hand side is whatever `parseFinal`
produced (the source casts the `Expr*` to `Final*` unchecked), plus at most
one of the arithmetic or logic right-hand sides. -/
structure Assignment where
  left : Expr
  rightExpr : Option Expr
  kind : AssignKind
  rightLogic : Option Logic
deriving DecidableEq

/-- A declaration initializer: `parseIntDec` stores arithmetic expressions,
`parseBoolDec` stores logic expressions into the same `Values` vector (the
header declares it as `Expr*` but the bool path assigns `Logic*` values). -/
inductive DeclInit where
  | arith (e : Expr)
  | logic (l : Logic)
deriving DecidableEq

/-- The `Declaration` node: declared names and initializer values. -/
structure Declaration where
  vars : List String
  values : List DeclInit
deriving DecidableEq

/-- The `elifStmt` node: condition and body assignments. -/
structure ElifNode where
  cond : Logic
  assignments : List Assignment
deriving DecidableEq

/-- The `IfStmt` node: condition, then-assignments, else-assignments and the
ordered elif clauses. -/
structure IfStmtNode where
  cond : Logic
  ifAssignments : List Assignment
  elseAssignments : List Assignment
  elifs : List ElifNode
deriving DecidableEq

/-- The `WhileStmt`/`IterStmt` node: condition and body assignments. -/
structure WhileNode where
  cond : Logic
  body : List Assignment
deriving DecidableEq

/-- Modelled from the spec (section 3, `ForStmt` row; `parseFor` absent from
the repository): a for-statement holds an initialization assignment, a
condition, a step assignment and a body. -/
structure ForNode where
  init : Assignment
  cond : Logic
  step : Assignment
  body : List Assignment
deriving DecidableEq

/-- Modelled from the spec (section 3, `PrintStmt` row; `parsePrint` absent
from the repository): a non-empty list of printable expressions. -/
structure PrintNode where
  values : List Expr
deriving DecidableEq

/-- A top-level statement as pushed into the `Program` node's `data` vector
by `parseProgram`. -/
inductive Stmt where
  | decl (d : Declaration)
  | assign (a : Assignment)
  | unaryStmt (op : UnaryKind) (ident : String)
  | ifS (i : IfStmtNode)
  | whileS (w : WhileNode)
  | forS (f : ForNode)
  | printS (p : PrintNode)
deriving DecidableEq

/-- The `Program` node: the ordered sequence of top-level statements. -/
structure ProgramNode where
  data : List Stmt
deriving DecidableEq

/-! ## The arithmetic-expression routines (`Parser.cpp` lines 378-551)

Each `while` loop of the source becomes a fuel-indexed helper (`exprLoop`,
`termLoop`, `factorLoop`); the mutual recursion of the grammar tower is
bounded by the same fuel.  Running out of fuel answers the absent signal with
the `fuelOut` marker set; with sufficient fuel this never occurs. -/

mutual

/-- Embeds `Parser::parseExpr` (`Parser.cpp` lines 378-411):
`Expr := Term {('+'|'-') Term}`. -/
def parseExpr : Nat → PState → Option Expr × PState
  | 0, st => (none, fuelFail st)
  | f + 1, st =>
    match parseTerm f st with
    | (none, st1) => (none, skipToEoi st1)
    | (some left, st1) => exprLoop f left st1

/-- The `while (Tok.isOneOf(plus, minus))` loop of `parseExpr`,
left-associative accumulation. -/
def exprLoop : Nat → Expr → PState → Option Expr × PState
  | 0, _, st => (none, fuelFail st)
  | f + 1, left, st =>
    if (curTok st).kind = .plus ∨ (curTok st).kind = .minus then
      let op : BinOp := if (curTok st).kind = .plus then .Plus else .Minus
      let st1 := advance st
      match parseTerm f st1 with
      | (none, st2) => (none, skipToEoi st2)
      | (some right, st2) => exprLoop f (.binary op left right) st2
    else
      (some left, st)

/-- Embeds `Parser::parseTerm` (`Parser.cpp` lines 413-447):
`Term := Factor {('*'|'/'|'%') Factor}`. -/
def parseTerm : Nat → PState → Option Expr × PState
  | 0, st => (none, fuelFail st)
  | f + 1, st =>
    match parseFactor f st with
    | (none, st1) => (none, skipToEoi st1)
    | (some left, st1) => termLoop f left st1

/-- The `while (Tok.isOneOf(star, mod, slash))` loop of `parseTerm`. -/
def termLoop : Nat → Expr → PState → Option Expr × PState
  | 0, _, st => (none, fuelFail st)
  | f + 1, left, st =>
    if (curTok st).kind = .star ∨ (curTok st).kind = .mod ∨ (curTok st).kind = .slash then
      let op : BinOp :=
        if (curTok st).kind = .star then .Mul
        else if (curTok st).kind = .slash then .Div
        else .Mod
      let st1 := advance st
      match parseFactor f st1 with
      | (none, st2) => (none, skipToEoi st2)
      | (some right, st2) => termLoop f (.binary op left right) st2
    else
      (some left, st)

/-- Embeds `Parser::parseFactor` (`Parser.cpp` lines 449-479):
`Factor := Final {'^' Factor}`; the loop re-enters `parseFactor` for the
right operand, so `^` associates to the right. -/
def parseFactor : Nat → PState → Option Expr × PState
  | 0, st => (none, fuelFail st)
  | f + 1, st =>
    match parseFinal f st with
    | (none, st1) => (none, skipToEoi st1)
    | (some left, st1) => factorLoop f left st1

/-- The `while (Tok.is(exp))` loop of `parseFactor`. -/
def factorLoop : Nat → Expr → PState → Option Expr × PState
  | 0, _, st => (none, fuelFail st)
  | f + 1, left, st =>
    if (curTok st).kind = .exp then
      let st1 := advance st
      match parseFactor f st1 with
      | (none, st2) => (none, skipToEoi st2)
      | (some right, st2) => factorLoop f (.binary .Exp left right) st2
    else
      (some left, st)

/-- Embeds `Parser::parseFinal` (`Parser.cpp` lines 481-551).  The cases resolve in
source order: a number; an identifier optionally folded with a following
`++`/`--` into a `UnaryOp`; after `+` only a signed number; after `-` a
signed number or a negated parenthesized expression; a parenthesized
expression; anything else reports a diagnostic.  (The source compares
`Tok.getKind` without calling it on lines 516 and 521; the evident intent,
comparing the current kind, is embedded.) -/
def parseFinal : Nat → PState → Option Expr × PState
  | 0, st => (none, fuelFail st)
  | f + 1, st =>
    match (curTok st).kind with
    | .number => (some (.final .Number (curTok st).text), advance st)
    | .ident =>
      let prev := curTok st
      let st1 := advance st
      if (curTok st1).kind = .plus_plus then
        (some (.unary .Plus_plus prev.text), advance st1)
      else if (curTok st1).kind = .minus_minus then
        (some (.unary .Minus_minus prev.text), advance st1)
      else
        (some (.final .Ident prev.text), st1)
    | .plus =>
      let st1 := advance st
      if (curTok st1).kind = .number then
        (some (.signed .Plus (curTok st1).text), advance st1)
      else
        (none, skipToEoi st1)
    | .minus =>
      let st1 := advance st
      if (curTok st1).kind = .number then
        (some (.signed .Minus (curTok st1).text), advance st1)
      else if (curTok st1).kind = .l_paren then
        let st2 := advance st1
        match parseExpr f st2 with
        | (none, st3) => (none, skipToEoi st3)
        | (some e, st3) =>
          match consume .r_paren st3 with
          | (false, st4) => (some (.neg e), st4)
          | (true, st4) => (none, skipToEoi st4)
      else
        (none, skipToEoi st1)
    | .l_paren =>
      let st1 := advance st
      match parseExpr f st1 with
      | (none, st2) => (none, skipToEoi st2)
      | (some e, st2) =>
        match consume .r_paren st2 with
        | (false, st3) => (some e, st3)
        | (true, st3) => (none, skipToEoi st3)
    | _ => (none, skipToEoi (error st))

end

/-! ## The logic routines (`Parser.cpp` lines 553-653) -/

mutual

/-- Embeds `Parser::parseComparison` (`Parser.cpp` lines 553-619).  Alternatives in
source order: a parenthesized logic expression; the literal `true`; the
literal `false`; a bare identifier (each captured with no operands);
otherwise two arithmetic expressions joined by a relational operator.  Every
node goes through the `Comparison` constructor, which drops the operator
argument (see `mkComparison`). -/
def parseComparison : Nat → PState → Option Logic × PState
  | 0, st => (none, fuelFail st)
  | f + 1, st =>
    if (curTok st).kind = .l_paren then
      let st1 := advance st
      match parseLogic f st1 with
      | (none, st2) => (none, skipToEoi st2)
      | (some res, st2) =>
        match consume .r_paren st2 with
        | (true, st3) => (none, skipToEoi st3)
        | (false, st3) => (some res, st3)
    else if (curTok st).kind = .KW_true then
      (some (.cmp (mkComparison none none .True (curTok st).text)), advance st)
    else if (curTok st).kind = .KW_false then
      (some (.cmp (mkComparison none none .False (curTok st).text)), advance st)
    else if (curTok st).kind = .ident then
      (some (.cmp (mkComparison none none .Ident (curTok st).text)), advance st)
    else
      match parseExpr f st with
      | (none, st1) => (none, skipToEoi st1)
      | (some left, st1) =>
        let opFound : Option CompOp :=
          match (curTok st1).kind with
          | .eq => some .Equal
          | .neq => some .Not_equal
          | .gt => some .Greater
          | .lt => some .Less
          | .gte => some .Greater_equal
          | .lte => some .Less_equal
          | _ => none
        match opFound with
        | none => (none, skipToEoi (error st1))
        | some op =>
          let st2 := advance st1
          match parseExpr f st2 with
          | (none, st3) => (none, skipToEoi st3)
          | (some right, st3) =>
            (some (.cmp (mkComparison (some left) (some right) op (curTok st3).text)), st3)

/-- Embeds `Parser::parseLogic` (`Parser.cpp` lines 621-653):
`Logic := Comparison {('&&'|'||') Comparison}`. -/
def parseLogic : Nat → PState → Option Logic × PState
  | 0, st => (none, fuelFail st)
  | f + 1, st =>
    match parseComparison f st with
    | (none, st1) => (none, skipToEoi st1)
    | (some left, st1) => logicLoop f left st1

/-- The `while (Tok.isOneOf(KW_and, KW_or))` loop of `parseLogic`. -/
def logicLoop : Nat → Logic → PState → Option Logic × PState
  | 0, _, st => (none, fuelFail st)
  | f + 1, left, st =>
    if (curTok st).kind = .KW_and ∨ (curTok st).kind = .KW_or then
      let op : LogicOp := if (curTok st).kind = .KW_and then .And else .Or
      let st1 := advance st
      match parseComparison f st1 with
      | (none, st2) => (none, skipToEoi st2)
      | (some right, st2) => logicLoop f (.logical left right op) st2
    else
      (some left, st)

end

/-! ## Assignment, unary statement and declarations
(`Parser.cpp` lines 132-377) -/

/-- The shared tail of `Parser::parseAssign` from line 333: advance past the
operator token and parse the arithmetic right-hand side. -/
def assignTail (fuel : Nat) (ak : AssignKind) (fnode : Expr) (st : PState) :
    Option Assignment × PState :=
  let st1 := advance st
  match parseExpr fuel st1 with
  | (none, st2) => (none, skipToEoi st2)
  | (some e, st2) => (some ⟨fnode, some e, ak, none⟩, st2)

/-- Embeds `Parser::parseAssign` (`Parser.cpp` lines 287-346).  The target comes
from `parseFinal` (cast to `Final*` unchecked).  For `=`, the right-hand
side is trial-parsed as a logic expression with the cursor snapshot
`prev_Tok` restored on failure (restore semantics modelled from the spec,
sections 4.1 and 9), then re-parsed as an arithmetic expression; the four
compound operators parse an arithmetic expression directly. -/
def parseAssign (fuel : Nat) (st : PState) : Option Assignment × PState :=
  match parseFinal fuel st with
  | (none, st1) => (none, skipToEoi st1)
  | (some fnode, st1) =>
    let prevPos := st1.pos
    if (curTok st1).kind = .assign then
      match parseLogic fuel (advance st1) with
      | (some l, st3) => (some ⟨fnode, none, .Assign, some l⟩, st3)
      | (none, st3) => assignTail fuel .Assign fnode { st3 with pos := prevPos }
    else if (curTok st1).kind = .plus_assign then
      assignTail fuel .Plus_assign fnode st1
    else if (curTok st1).kind = .minus_assign then
      assignTail fuel .Minus_assign fnode st1
    else if (curTok st1).kind = .star_assign then
      assignTail fuel .Star_assign fnode st1
    else if (curTok st1).kind = .slash_assign then
      assignTail fuel .Slash_assign fnode st1
    else
      (none, skipToEoi (error st1))

/-- Embeds `Parser::parseUnary` (`Parser.cpp` lines 348-377): an identifier
immediately followed by `++` or `--`; any other continuation takes the error
path (which emits no diagnostic) and the caller restores its snapshot. -/
def parseUnary (st : PState) : Option (UnaryKind × String) × PState :=
  match expect .ident st with
  | (true, st1) => (none, skipToEoi st1)
  | (false, st1) =>
    let v := (curTok st1).text
    let st2 := advance st1
    if (curTok st2).kind = .plus_plus then
      (some (.Plus_plus, v), advance st2)
    else if (curTok st2).kind = .minus_minus then
      (some (.Minus_minus, v), advance st2)
    else
      (none, skipToEoi st2)

/-- The `while (Tok.is(comma))` name loop shared by `parseIntDec` and
`parseBoolDec` (`Parser.cpp` lines 153-163 and 230-240): collect further
declared names, incrementing `count`. -/
def decNames : Nat → List String → Nat → PState → Option (List String × Nat) × PState
  | 0, _, _, st => (none, fuelFail st)
  | f + 1, vars, count, st =>
    if (curTok st).kind = .comma then
      let st1 := advance st
      match expect .ident st1 with
      | (true, st2) => (none, skipToEoi st2)
      | (false, st2) => decNames f (vars ++ [(curTok st2).text]) (count + 1) (advance st2)
    else
      (some (vars, count), st)

/-- The `while (Tok.is(comma))` initializer loop of `parseIntDec`
(`Parser.cpp` lines 177-193): a further initializer is a hard error once
`count` has reached zero; otherwise parse it and decrement `count`. -/
def intDecInits : Nat → List DeclInit → Nat → PState → Option (List DeclInit × Nat) × PState
  | 0, _, _, st => (none, fuelFail st)
  | f + 1, values, count, st =>
    if (curTok st).kind = .comma then
      if count = 0 then
        (none, skipToEoi (error st))
      else
        let st1 := advance st
        match parseExpr f st1 with
        | (none, st2) => (none, skipToEoi st2)
        | (some e, st2) => intDecInits f (values ++ [.arith e]) (count - 1) st2
    else
      (some (values, count), st)

/-- The initializer loop of `parseBoolDec` (`Parser.cpp` lines 254-270),
identical to `intDecInits` but parsing logic expressions. -/
def boolDecInits : Nat → List DeclInit → Nat → PState → Option (List DeclInit × Nat) × PState
  | 0, _, _, st => (none, fuelFail st)
  | f + 1, values, count, st =>
    if (curTok st).kind = .comma then
      if count = 0 then
        (none, skipToEoi (error st))
      else
        let st1 := advance st
        match parseLogic f st1 with
        | (none, st2) => (none, skipToEoi st2)
        | (some l, st2) => boolDecInits f (values ++ [.logic l]) (count - 1) st2
    else
      (some (values, count), st)

/-- Embeds `Parser::parseIntDec` (`Parser.cpp` lines 132-206): `'int' name {','
name} ['=' expr {',' expr}] ';'` with the `count` bookkeeping of the
source. -/
def parseIntDec (fuel : Nat) (st : PState) : Option Declaration × PState :=
  match expect .KW_int st with
  | (true, st1) => (none, skipToEoi st1)
  | (false, st1) =>
    let st2 := advance st1
    match expect .ident st2 with
    | (true, st3) => (none, skipToEoi st3)
    | (false, st3) =>
      let vars0 := [(curTok st3).text]
      let st4 := advance st3
      match decNames fuel vars0 1 st4 with
      | (none, st5) => (none, skipToEoi st5)
      | (some (vars, count), st5) =>
        if (curTok st5).kind = .assign then
          match parseExpr fuel (advance st5) with
          | (none, st6) => (none, skipToEoi st6)
          | (some e, st6) =>
            match intDecInits fuel [.arith e] (count - 1) st6 with
            | (none, st7) => (none, skipToEoi st7)
            | (some (values, _), st7) =>
              match expect .semicolon st7 with
              | (true, st8) => (none, skipToEoi st8)
              | (false, st8) => (some ⟨vars, values⟩, st8)
        else
          match expect .semicolon st5 with
          | (true, st6) => (none, skipToEoi st6)
          | (false, st6) => (some ⟨vars, []⟩, st6)

/-- Embeds `Parser::parseBoolDec` (`Parser.cpp` lines 209-283), identical to
`parseIntDec` but with `'bool'` and logic-expression initializers. -/
def parseBoolDec (fuel : Nat) (st : PState) : Option Declaration × PState :=
  match expect .KW_bool st with
  | (true, st1) => (none, skipToEoi st1)
  | (false, st1) =>
    let st2 := advance st1
    match expect .ident st2 with
    | (true, st3) => (none, skipToEoi st3)
    | (false, st3) =>
      let vars0 := [(curTok st3).text]
      let st4 := advance st3
      match decNames fuel vars0 1 st4 with
      | (none, st5) => (none, skipToEoi st5)
      | (some (vars, count), st5) =>
        if (curTok st5).kind = .assign then
          match parseLogic fuel (advance st5) with
          | (none, st6) => (none, skipToEoi st6)
          | (some l, st6) =>
            match boolDecInits fuel [.logic l] (count - 1) st6 with
            | (none, st7) => (none, skipToEoi st7)
            | (some (values, _), st7) =>
              match expect .semicolon st7 with
              | (true, st8) => (none, skipToEoi st8)
              | (false, st8) => (some ⟨vars, values⟩, st8)
        else
          match expect .semicolon st5 with
          | (true, st6) => (none, skipToEoi st6)
          | (false, st6) => (some ⟨vars, []⟩, st6)

/-! ## Block statements (`Parser.cpp` lines 655-856) -/

/-- The `while (!Tok.is(KW_end)) { parseAssign; expect(semicolon); advance }`
body loop shared verbatim by the then/elif/else blocks of `parseIf`
(`Parser.cpp` lines 690-704, 735-752, 777-791) and by `parseIter` (lines
832-848): collect assignments until the block terminator is current. -/
def assignBlock : Nat → List Assignment → PState → Option (List Assignment) × PState
  | 0, _, st => (none, fuelFail st)
  | f + 1, acc, st =>
    if (curTok st).kind = .KW_end then
      (some acc, st)
    else
      match parseAssign f st with
      | (none, st1) => (none, skipToEoi st1)
      | (some a, st1) =>
        match expect .semicolon st1 with
        | (true, st2) => (none, skipToEoi st2)
        | (false, st2) => assignBlock f (acc ++ [a]) (advance st2)

/-- The `while (Tok.is(KW_elif))` loop of `parseIf` (`Parser.cpp` lines
708-757): each clause parses its condition, `':' 'begin'`, a body block, and
advances past its own `end`. -/
def elifLoop : Nat → List ElifNode → PState → Option (List ElifNode) × PState
  | 0, _, st => (none, fuelFail st)
  | f + 1, acc, st =>
    if (curTok st).kind = .KW_elif then
      let st1 := advance st
      match parseLogic f st1 with
      | (none, st2) => (none, skipToEoi st2)
      | (some c, st2) =>
        match expect .colon st2 with
        | (true, st3) => (none, skipToEoi st3)
        | (false, st3) =>
          let st4 := advance st3
          match expect .KW_begin st4 with
          | (true, st5) => (none, skipToEoi st5)
          | (false, st5) =>
            let st6 := advance st5
            match assignBlock f [] st6 with
            | (none, st7) => (none, skipToEoi st7)
            | (some asgs, st7) => elifLoop f (acc ++ [⟨c, asgs⟩]) (advance st7)
    else
      (some acc, st)

/-- Embeds `Parser::parseIf` (`Parser.cpp` lines 655-802).  It clears the
process-wide `haveElse` flag on entry (line 664), parses the condition and
then-block, advances past the then-block's `end` (line 706), accumulates
elif clauses (each consuming its own `end`), and if `else` is current sets
`haveElse` (line 761) and parses the else block, returning with its `end`
still current. -/
def parseIf (fuel : Nat) (st0 : PState) : Option IfStmtNode × PState :=
  let st := { st0 with haveElse := false }
  match expect .KW_if st with
  | (true, st1) => (none, skipToEoi st1)
  | (false, st1) =>
    let st2 := advance st1
    match parseLogic fuel st2 with
    | (none, st3) => (none, skipToEoi st3)
    | (some cond, st3) =>
      match expect .colon st3 with
      | (true, st4) => (none, skipToEoi st4)
      | (false, st4) =>
        let st5 := advance st4
        match expect .KW_begin st5 with
        | (true, st6) => (none, skipToEoi st6)
        | (false, st6) =>
          let st7 := advance st6
          match assignBlock fuel [] st7 with
          | (none, st8) => (none, skipToEoi st8)
          | (some ifAsgs, st8) =>
            let st9 := advance st8
            match elifLoop fuel [] st9 with
            | (none, st10) => (none, skipToEoi st10)
            | (some elifs, st10) =>
              if (curTok st10).kind = .KW_else then
                let st11 := advance { st10 with haveElse := true }
                match expect .colon st11 with
                | (true, st12) => (none, skipToEoi st12)
                | (false, st12) =>
                  let st13 := advance st12
                  match expect .KW_begin st13 with
                  | (true, st14) => (none, skipToEoi st14)
                  | (false, st14) =>
                    let st15 := advance st14
                    match assignBlock fuel [] st15 with
                    | (none, st16) => (none, skipToEoi st16)
                    | (some elseAsgs, st16) =>
                      (some ⟨cond, ifAsgs, elseAsgs, elifs⟩, st16)
              else
                (some ⟨cond, ifAsgs, [], elifs⟩, st10)

/-- Embeds `Parser::parseIter` (`Parser.cpp` lines 804-856): `'loopc' Logic ':'
'begin' {Assignment ';'} 'end'`, returning with the terminating `end` still
current.  Defined in the source but never called by `parseProgram`, which
dispatches `KW_while` to the absent `parseWhile` instead. -/
def parseIter (fuel : Nat) (st : PState) : Option WhileNode × PState :=
  match expect .KW_loopc st with
  | (true, st1) => (none, skipToEoi st1)
  | (false, st1) =>
    let st2 := advance st1
    match parseLogic fuel st2 with
    | (none, st3) => (none, skipToEoi st3)
    | (some cond, st3) =>
      match expect .colon st3 with
      | (true, st4) => (none, skipToEoi st4)
      | (false, st4) =>
        let st5 := advance st4
        match expect .KW_begin st5 with
        | (true, st6) => (none, skipToEoi st6)
        | (false, st6) =>
          let st7 := advance st6
          match assignBlock fuel [] st7 with
          | (none, st8) => (none, skipToEoi st8)
          | (some body, st8) => (some ⟨cond, body⟩, st8)

/-- Modelled from the spec (sections 4.4 and `While/for/print follow the same
block-delimited pattern`; `parseWhile` is called by `parseProgram` but absent
from the repository): like `parseIter` with the `while` keyword. -/
def parseWhile (fuel : Nat) (st : PState) : Option WhileNode × PState :=
  match expect .KW_while st with
  | (true, st1) => (none, skipToEoi st1)
  | (false, st1) =>
    let st2 := advance st1
    match parseLogic fuel st2 with
    | (none, st3) => (none, skipToEoi st3)
    | (some cond, st3) =>
      match expect .colon st3 with
      | (true, st4) => (none, skipToEoi st4)
      | (false, st4) =>
        let st5 := advance st4
        match expect .KW_begin st5 with
        | (true, st6) => (none, skipToEoi st6)
        | (false, st6) =>
          let st7 := advance st6
          match assignBlock fuel [] st7 with
          | (none, st8) => (none, skipToEoi st8)
          | (some body, st8) => (some ⟨cond, body⟩, st8)

/-- Modelled from the spec (section 3 `ForStmt` row and section 4.4;
`parseFor` is called by `parseProgram` but absent from the repository): a
header of initialization, condition and step in the block-delimited pattern,
returning with the terminating `end` current. -/
def parseFor (fuel : Nat) (st : PState) : Option ForNode × PState :=
  match expect .KW_for st with
  | (true, st1) => (none, skipToEoi st1)
  | (false, st1) =>
    let st2 := advance st1
    match parseAssign fuel st2 with
    | (none, st3) => (none, skipToEoi st3)
    | (some ini, st3) =>
      match expect .semicolon st3 with
      | (true, st4) => (none, skipToEoi st4)
      | (false, st4) =>
        let st5 := advance st4
        match parseLogic fuel st5 with
        | (none, st6) => (none, skipToEoi st6)
        | (some cond, st6) =>
          match expect .semicolon st6 with
          | (true, st7) => (none, skipToEoi st7)
          | (false, st7) =>
            let st8 := advance st7
            match parseAssign fuel st8 with
            | (none, st9) => (none, skipToEoi st9)
            | (some step, st9) =>
              match expect .colon st9 with
              | (true, st10) => (none, skipToEoi st10)
              | (false, st10) =>
                let st11 := advance st10
                match expect .KW_begin st11 with
                | (true, st12) => (none, skipToEoi st12)
                | (false, st12) =>
                  let st13 := advance st12
                  match assignBlock fuel [] st13 with
                  | (none, st14) => (none, skipToEoi st14)
                  | (some body, st14) => (some ⟨ini, cond, step, body⟩, st14)

/-- The `{',' expr}` tail loop of a print statement. -/
def printArgs : Nat → List Expr → PState → Option (List Expr) × PState
  | 0, _, st => (none, fuelFail st)
  | f + 1, acc, st =>
    if (curTok st).kind = .comma then
      let st1 := advance st
      match parseExpr f st1 with
      | (none, st2) => (none, skipToEoi st2)
      | (some e, st2) => printArgs f (acc ++ [e]) st2
    else
      (some acc, st)

/-- Modelled from the spec (sections 3 `PrintStmt` row, 4.4 and the remark
that print's body is a comma-separated expression list; `parsePrint` is
called by `parseProgram` but absent from the repository): `'print' expr
{',' expr}`, leaving the statement terminator current. -/
def parsePrint (fuel : Nat) (st : PState) : Option PrintNode × PState :=
  match expect .KW_print st with
  | (true, st1) => (none, skipToEoi st1)
  | (false, st1) =>
    let st2 := advance st1
    match parseExpr fuel st2 with
    | (none, st3) => (none, skipToEoi st3)
    | (some e, st3) =>
      match printArgs fuel [e] st3 with
      | (none, st4) => (none, skipToEoi st4)
      | (some es, st4) => (some ⟨es⟩, st4)

/-! ## The statement loop (`Parser.cpp` lines 12-130) -/

/-- Lines 121-123 of `Parser.cpp`: after a pushed statement the loop
advances past its terminator exactly when `haveElse` is set. -/
def afterStmt (st : PState) : PState :=
  if st.haveElse then advance st else st

/-- The `while (!Tok.is(Token::eoi))` statement loop of
`Parser::parseProgram` (`Parser.cpp` lines 16-124): set `haveElse`, dispatch
on the current token kind, push the parsed node or jump to the panic
handler.  In the identifier case the cursor snapshot `prev_token` is
restored when the trial `parseUnary` fails (the source checks the
`semicolon` test first and restores in both of its branches when `u` is
null; the branch outcomes are embedded unchanged). -/
def programLoop : Nat → List Stmt → PState → Option ProgramNode × PState
  | 0, _, st => (none, fuelFail st)
  | f + 1, acc, st0 =>
    if (curTok st0).kind = .eoi then
      (some ⟨acc⟩, st0)
    else
      let st := { st0 with haveElse := true }
      match (curTok st).kind with
      | .KW_int =>
        match parseIntDec f st with
        | (none, st1) => (none, skipToEoi st1)
        | (some d, st1) => programLoop f (acc ++ [.decl d]) (afterStmt st1)
      | .KW_bool =>
        match parseBoolDec f st with
        | (none, st1) => (none, skipToEoi st1)
        | (some d, st1) => programLoop f (acc ++ [.decl d]) (afterStmt st1)
      | .ident =>
        let prevPos := st.pos
        match parseUnary st with
        | (some u, st1) =>
          if (curTok st1).kind = .semicolon then
            programLoop f (acc ++ [.unaryStmt u.1 u.2]) (afterStmt st1)
          else
            (none, skipToEoi (error st1))
        | (none, st1) =>
          match parseAssign f { st1 with pos := prevPos } with
          | (a?, st3) =>
            if (curTok st3).kind = .semicolon then
              match a? with
              | some a => programLoop f (acc ++ [.assign a]) (afterStmt st3)
              | none => (none, skipToEoi st3)
            else
              (none, skipToEoi (error st3))
      | .KW_if =>
        match parseIf f st with
        | (none, st1) => (none, skipToEoi st1)
        | (some i, st1) => programLoop f (acc ++ [.ifS i]) (afterStmt st1)
      | .KW_while =>
        match parseWhile f st with
        | (none, st1) => (none, skipToEoi st1)
        | (some w, st1) => programLoop f (acc ++ [.whileS w]) (afterStmt st1)
      | .KW_for =>
        match parseFor f st with
        | (none, st1) => (none, skipToEoi st1)
        | (some l, st1) => programLoop f (acc ++ [.forS l]) (afterStmt st1)
      | .KW_print =>
        match parsePrint f st with
        | (none, st1) => (none, skipToEoi st1)
        | (some p, st1) => programLoop f (acc ++ [.printS p]) (afterStmt st1)
      | _ => (none, skipToEoi (error st))

/-- Embeds `Parser::parseProgram` (`Parser.cpp` lines 12-130): run the statement
loop with an empty accumulator. -/
def parseProgram (fuel : Nat) (st : PState) : Option ProgramNode × PState :=
  programLoop fuel [] st

/-- The initial parser state over a token sequence: cursor at the front, no
diagnostics, `haveElse` default-initialized false (`Parser.cpp` line 3). -/
def initState (ts : List Token) : PState := ⟨ts, 0, 0, false, false⟩

/-- A fuel bound ample for any concrete input used in the theorems below. -/
def fuelFor (ts : List Token) : Nat := ts.length * 20 + 20

/-- Embeds `Parser::parse` (`Parser.cpp` lines 6-10): the entry point just runs
`parseProgram`. -/
def parse (ts : List Token) : Option ProgramNode × PState :=
  parseProgram (fuelFor ts) (initState ts)


/-! ## Auxiliary state predicates and concrete token sequences -/

/-- The cursor has reached the end-of-input sentinel. -/
def atEoi (st : PState) : Prop := (curTok st).kind = .eoi

/-- The cursor sits right after a block terminator: the token before the
current position is `end`. -/
def prevIsEnd (st : PState) : Prop :=
  1 ≤ st.pos ∧ ((st.toks.drop (st.pos - 1)).headD eoiTok).kind = .KW_end

/-- The tokens of one `int a ;` declaration statement. -/
def intDeclToks : List Token := [⟨.KW_int, "int"⟩, ⟨.ident, "a"⟩, ⟨.semicolon, ";"⟩]

/-- A source consisting of `n` copies of `int a ;`. -/
def declBlocks (n : Nat) : List Token := (List.replicate n intDeclToks).flatten

/-- Tokens of `x = y + z ;`. -/
def assignIdentArithToks : List Token :=
  [⟨.ident, "x"⟩, ⟨.assign, "="⟩, ⟨.ident, "y"⟩, ⟨.plus, "+"⟩, ⟨.ident, "z"⟩, ⟨.semicolon, ";"⟩]

/-- Tokens of `x = y && z ;`. -/
def assignLogicToks : List Token :=
  [⟨.ident, "x"⟩, ⟨.assign, "="⟩, ⟨.ident, "y"⟩, ⟨.KW_and, "&&"⟩, ⟨.ident, "z"⟩, ⟨.semicolon, ";"⟩]

/-- Tokens of `x = 1 + 2 ;`. -/
def assignNumArithToks : List Token :=
  [⟨.ident, "x"⟩, ⟨.assign, "="⟩, ⟨.number, "1"⟩, ⟨.plus, "+"⟩, ⟨.number, "2"⟩, ⟨.semicolon, ";"⟩]

/-- Tokens of `int a = + ;` (a lone sign with no literal after it). -/
def intLoneSignToks : List Token :=
  [⟨.KW_int, "int"⟩, ⟨.ident, "a"⟩, ⟨.assign, "="⟩, ⟨.plus, "+"⟩, ⟨.semicolon, ";"⟩]

/-- Tokens of `int a , b = 1 ;`. -/
def intTwoVarsOneInitToks : List Token :=
  [⟨.KW_int, "int"⟩, ⟨.ident, "a"⟩, ⟨.comma, ","⟩, ⟨.ident, "b"⟩, ⟨.assign, "="⟩,
    ⟨.number, "1"⟩, ⟨.semicolon, ";"⟩]

/-- Tokens of `int a , b = 1 , 2 ;`. -/
def intTwoVarsTwoInitsToks : List Token :=
  [⟨.KW_int, "int"⟩, ⟨.ident, "a"⟩, ⟨.comma, ","⟩, ⟨.ident, "b"⟩, ⟨.assign, "="⟩,
    ⟨.number, "1"⟩, ⟨.comma, ","⟩, ⟨.number, "2"⟩, ⟨.semicolon, ";"⟩]

/-- Tokens of `int a , b = 1 , 2 , 3 ;`. -/
def intTwoVarsThreeInitsToks : List Token :=
  [⟨.KW_int, "int"⟩, ⟨.ident, "a"⟩, ⟨.comma, ","⟩, ⟨.ident, "b"⟩, ⟨.assign, "="⟩,
    ⟨.number, "1"⟩, ⟨.comma, ","⟩, ⟨.number, "2"⟩, ⟨.comma, ","⟩, ⟨.number, "3"⟩,
    ⟨.semicolon, ";"⟩]

/-- Tokens of the comparison `1 == 2` followed by end of input. -/
def cmpRelToks : List Token := [⟨.number, "1"⟩, ⟨.eq, "=="⟩, ⟨.number, "2"⟩]

/-- Tokens of `x ++ -= 3 ;` (a unary statement not followed by the terminator,
from which an assignment is parseable). -/
def unaryThenCompoundToks : List Token :=
  [⟨.ident, "x"⟩, ⟨.plus_plus, "++"⟩, ⟨.minus_assign, "-="⟩, ⟨.number, "3"⟩, ⟨.semicolon, ";"⟩]

/-- Tokens of `x ++ ;`. -/
def unaryStmtToks : List Token :=
  [⟨.ident, "x"⟩, ⟨.plus_plus, "++"⟩, ⟨.semicolon, ";"⟩]

/-- Tokens of `x = 1 ;`. -/
def assignSimpleToks : List Token :=
  [⟨.ident, "x"⟩, ⟨.assign, "="⟩, ⟨.number, "1"⟩, ⟨.semicolon, ";"⟩]

/-- Tokens of `+ ( 5 ) ;`. -/
def plusParenToks : List Token :=
  [⟨.plus, "+"⟩, ⟨.l_paren, "("⟩, ⟨.number, "5"⟩, ⟨.r_paren, ")"⟩, ⟨.semicolon, ";"⟩]

/-- Tokens of `if true : begin end int b ;` (an if-statement without `else`
followed by a declaration). -/
def ifNoElseToks : List Token :=
  [⟨.KW_if, "if"⟩, ⟨.KW_true, "true"⟩, ⟨.colon, ":"⟩, ⟨.KW_begin, "begin"⟩, ⟨.KW_end, "end"⟩,
    ⟨.KW_int, "int"⟩, ⟨.ident, "b"⟩, ⟨.semicolon, ";"⟩]

/-- Tokens of `if true : begin end else : begin end int b ;` (an if-statement
with `else` followed by a declaration). -/
def ifElseToks : List Token :=
  [⟨.KW_if, "if"⟩, ⟨.KW_true, "true"⟩, ⟨.colon, ":"⟩, ⟨.KW_begin, "begin"⟩, ⟨.KW_end, "end"⟩,
    ⟨.KW_else, "else"⟩, ⟨.colon, ":"⟩, ⟨.KW_begin, "begin"⟩, ⟨.KW_end, "end"⟩,
    ⟨.KW_int, "int"⟩, ⟨.ident, "b"⟩, ⟨.semicolon, ";"⟩]

/-- Tokens of the comparison `x == 5`. -/
def identEqNumToks : List Token :=
  [⟨.ident, "x"⟩, ⟨.eq, "=="⟩, ⟨.number, "5"⟩]

/-- Tokens of `x 5 ;` (an assignment statement with its operator missing). -/
def identNumToks : List Token := [⟨.ident, "x"⟩, ⟨.number, "5"⟩, ⟨.semicolon, ";"⟩]

/-- Tokens of `x = ( 1 :` (an unclosed parenthesis on an assignment's
right-hand side). -/
def assignParenColonToks : List Token :=
  [⟨.ident, "x"⟩, ⟨.assign, "="⟩, ⟨.l_paren, "("⟩, ⟨.number, "1"⟩, ⟨.colon, ":"⟩]

/-- Tokens of `x = ( 1 ) ;`. -/
def assignParenToks : List Token :=
  [⟨.ident, "x"⟩, ⟨.assign, "="⟩, ⟨.l_paren, "("⟩, ⟨.number, "1"⟩, ⟨.r_paren, ")"⟩,
    ⟨.semicolon, ";"⟩]

/-! ## Grammar of section 4.4, modelled from the spec

The following inductives give the token language generated by the grammar of
spec section 4.4 (sections 62-73), used only to state well-formedness of
inputs.  `SpecStmtToks` covers the assignment, standalone-unary and
no-initializer declaration statement forms; the remaining statement forms
(initialized declarations, `if`, `while`, `for`, `print`) are omitted, so
every sequence these predicates accept conforms to the grammar of section
4.4.  `SpecProgramToks l n` says `l` derives from `Program := { Statement }`
with exactly `n` top-level statements. -/

mutual

inductive SpecFinalToks : List Token → Prop where
  | num (t : Token) : t.kind = .number → SpecFinalToks [t]
  | id (t : Token) : t.kind = .ident → SpecFinalToks [t]
  | idStep (t op : Token) : t.kind = .ident →
      (op.kind = .plus_plus ∨ op.kind = .minus_minus) → SpecFinalToks [t, op]
  | signedNum (s t : Token) : (s.kind = .plus ∨ s.kind = .minus) → t.kind = .number →
      SpecFinalToks [s, t]
  | negParen (m l r : Token) (e : List Token) : m.kind = .minus → l.kind = .l_paren →
      r.kind = .r_paren → SpecExprToks e → SpecFinalToks (m :: l :: (e ++ [r]))
  | posParen (p l r : Token) (e : List Token) : p.kind = .plus → l.kind = .l_paren →
      r.kind = .r_paren → SpecExprToks e → SpecFinalToks (p :: l :: (e ++ [r]))
  | paren (l r : Token) (e : List Token) : l.kind = .l_paren → r.kind = .r_paren →
      SpecExprToks e → SpecFinalToks (l :: (e ++ [r]))

inductive SpecFactorToks : List Token → Prop where
  | base (l : List Token) : SpecFinalToks l → SpecFactorToks l
  | pow (l1 : List Token) (op : Token) (l2 : List Token) : SpecFinalToks l1 →
      op.kind = .exp → SpecFactorToks l2 → SpecFactorToks (l1 ++ op :: l2)

inductive SpecTermToks : List Token → Prop where
  | base (l : List Token) : SpecFactorToks l → SpecTermToks l
  | mul (l1 : List Token) (op : Token) (l2 : List Token) : SpecTermToks l1 →
      (op.kind = .star ∨ op.kind = .slash ∨ op.kind = .mod) → SpecFactorToks l2 →
      SpecTermToks (l1 ++ op :: l2)

inductive SpecExprToks : List Token → Prop where
  | base (l : List Token) : SpecTermToks l → SpecExprToks l
  | add (l1 : List Token) (op : Token) (l2 : List Token) : SpecExprToks l1 →
      (op.kind = .plus ∨ op.kind = .minus) → SpecTermToks l2 →
      SpecExprToks (l1 ++ op :: l2)

end

mutual

inductive SpecComparisonToks : List Token → Prop where
  | paren (l r : Token) (lg : List Token) : l.kind = .l_paren → r.kind = .r_paren →
      SpecLogicToks lg → SpecComparisonToks (l :: (lg ++ [r]))
  | litTrue (t : Token) : t.kind = .KW_true → SpecComparisonToks [t]
  | litFalse (t : Token) : t.kind = .KW_false → SpecComparisonToks [t]
  | id (t : Token) : t.kind = .ident → SpecComparisonToks [t]
  | rel (l1 : List Token) (op : Token) (l2 : List Token) : SpecExprToks l1 →
      (op.kind = .eq ∨ op.kind = .neq ∨ op.kind = .gt ∨ op.kind = .lt ∨
        op.kind = .gte ∨ op.kind = .lte) → SpecExprToks l2 →
      SpecComparisonToks (l1 ++ op :: l2)

inductive SpecLogicToks : List Token → Prop where
  | base (l : List Token) : SpecComparisonToks l → SpecLogicToks l
  | chain (l1 : List Token) (op : Token) (l2 : List Token) : SpecLogicToks l1 →
      (op.kind = .KW_and ∨ op.kind = .KW_or) → SpecComparisonToks l2 →
      SpecLogicToks (l1 ++ op :: l2)

end

inductive SpecAssignToks : List Token → Prop where
  | logicRhs (x op : Token) (lg : List Token) : x.kind = .ident → op.kind = .assign →
      SpecLogicToks lg → SpecAssignToks (x :: op :: lg)
  | arithRhs (x op : Token) (e : List Token) : x.kind = .ident → op.kind = .assign →
      SpecExprToks e → SpecAssignToks (x :: op :: e)
  | compound (x op : Token) (e : List Token) : x.kind = .ident →
      (op.kind = .plus_assign ∨ op.kind = .minus_assign ∨ op.kind = .star_assign ∨
        op.kind = .slash_assign) → SpecExprToks e → SpecAssignToks (x :: op :: e)

inductive SpecNameTailToks : List Token → Prop where
  | nil : SpecNameTailToks []
  | cons (c t : Token) (rest : List Token) : c.kind = .comma → t.kind = .ident →
      SpecNameTailToks rest → SpecNameTailToks (c :: t :: rest)

inductive SpecStmtToks : List Token → Prop where
  | assign (a : List Token) (s : Token) : SpecAssignToks a → s.kind = .semicolon →
      SpecStmtToks (a ++ [s])
  | unary (x op s : Token) : x.kind = .ident →
      (op.kind = .plus_plus ∨ op.kind = .minus_minus) → s.kind = .semicolon →
      SpecStmtToks [x, op, s]
  | declNoInit (kw t : Token) (tail : List Token) (s : Token) :
      (kw.kind = .KW_int ∨ kw.kind = .KW_bool) → t.kind = .ident →
      SpecNameTailToks tail → s.kind = .semicolon →
      SpecStmtToks (kw :: t :: (tail ++ [s]))

inductive SpecProgramToks : List Token → Nat → Prop where
  | nil : SpecProgramToks [] 0
  | cons (s p : List Token) (n : Nat) : SpecStmtToks s → SpecProgramToks p n →
      SpecProgramToks (s ++ p) (n + 1)


/-! ## Theorems -/



theorem headD_drop_eoiSteps (l : List Token) :
    ((l.drop (eoiSteps l)).headD eoiTok).kind = .eoi := by
  induction l with
  | nil => rfl
  | cons t ts ih =>
    by_cases h : t.kind = .eoi
    · simp [eoiSteps, h]
    · simpa [eoiSteps, h] using ih

theorem atEoi_skipToEoi (st : PState) : atEoi (skipToEoi st) := by
  show ((st.toks.drop (st.pos + eoiSteps (st.toks.drop st.pos))).headD eoiTok).kind = .eoi
  rw [← List.drop_drop]
  exact headD_drop_eoiSteps _

theorem advance_haveElse (st : PState) : (advance st).haveElse = st.haveElse := rfl
theorem error_haveElse (st : PState) : (error st).haveElse = st.haveElse := rfl
theorem skipToEoi_haveElse (st : PState) : (skipToEoi st).haveElse = st.haveElse := rfl
theorem fuelFail_haveElse (st : PState) : (fuelFail st).haveElse = st.haveElse := rfl
theorem expect_haveElse (k : TokenKind) (st : PState) : ((expect k st).2).haveElse = st.haveElse := by
  unfold expect; split <;> rfl
theorem consume_haveElse (k : TokenKind) (st : PState) : ((consume k st).2).haveElse = st.haveElse := by
  unfold consume
  rcases h : expect k st with ⟨b, st1⟩
  have e := expect_haveElse k st
  rw [h] at e
  rcases b <;> simp [advance] <;> exact e

theorem heArith : ∀ f : Nat,
    (∀ st, ((parseExpr f st).2).haveElse = st.haveElse) ∧
    (∀ l st, ((exprLoop f l st).2).haveElse = st.haveElse) ∧
    (∀ st, ((parseTerm f st).2).haveElse = st.haveElse) ∧
    (∀ l st, ((termLoop f l st).2).haveElse = st.haveElse) ∧
    (∀ st, ((parseFactor f st).2).haveElse = st.haveElse) ∧
    (∀ l st, ((factorLoop f l st).2).haveElse = st.haveElse) ∧
    (∀ st, ((parseFinal f st).2).haveElse = st.haveElse) := by
  intro f
  induction f with
  | zero =>
    refine ⟨fun st => rfl, fun l st => rfl, fun st => rfl, fun l st => rfl,
      fun st => rfl, fun l st => rfl, fun st => rfl⟩
  | succ f ih =>
    obtain ⟨ihE, ihEL, ihT, ihTL, ihF, ihFL, ihFin⟩ := ih
    have hFin : ∀ st, ((parseFinal (f + 1) st).2).haveElse = st.haveElse := by
      intro st
      rw [parseFinal]
      dsimp only
      split
      · rfl
      · split
        · rfl
        · split
          · rfl
          · rfl
      · split
        · rfl
        · rfl
      · split
        · rfl
        · split
          · rcases h1 : parseExpr f (advance (advance st)) with ⟨r1, st3⟩
            have e1 : st3.haveElse = st.haveElse := by
              have t := ihE (advance (advance st)); rw [h1] at t; simpa [advance] using t
            rcases r1 with _ | e
            · simpa [skipToEoi_haveElse] using e1
            · rcases h2 : consume TokenKind.r_paren st3 with ⟨b, st4⟩
              have e2 : st4.haveElse = st3.haveElse := by
                have t := consume_haveElse TokenKind.r_paren st3; rw [h2] at t; simpa using t
              rcases b <;> simp [h1, h2, skipToEoi_haveElse, e1, e2]
          · rfl
      · rcases h1 : parseExpr f (advance st) with ⟨r1, st2⟩
        have e1 : st2.haveElse = st.haveElse := by
          have t := ihE (advance st); rw [h1] at t; simpa [advance] using t
        rcases r1 with _ | e
        · simp [h1, skipToEoi_haveElse, e1]
        · rcases h2 : consume TokenKind.r_paren st2 with ⟨b, st3⟩
          have e2 : st3.haveElse = st2.haveElse := by
            have t := consume_haveElse TokenKind.r_paren st2; rw [h2] at t; simpa using t
          rcases b <;> simp [h1, h2, skipToEoi_haveElse, e1, e2]
      · rfl
    have hF : ∀ st, ((parseFactor (f + 1) st).2).haveElse = st.haveElse := by
      intro st
      rw [parseFactor]
      rcases h1 : parseFinal f st with ⟨r1, st1⟩
      have e1 : st1.haveElse = st.haveElse := by
        have t := ihFin st; rw [h1] at t; simpa using t
      rcases r1 with _ | e
      · simp [h1, skipToEoi_haveElse, e1]
      · simp [h1, ihFL, e1]
    have hFL : ∀ l st, ((factorLoop (f + 1) l st).2).haveElse = st.haveElse := by
      intro l st
      rw [factorLoop]
      dsimp only
      split
      · rcases h1 : parseFactor f (advance st) with ⟨r1, st1⟩
        have e1 : st1.haveElse = st.haveElse := by
          have t := ihF (advance st); rw [h1] at t; simpa [advance] using t
        rcases r1 with _ | e
        · simp [h1, skipToEoi_haveElse, e1]
        · simp [h1, ihFL, e1]
      · rfl
    have hT : ∀ st, ((parseTerm (f + 1) st).2).haveElse = st.haveElse := by
      intro st
      rw [parseTerm]
      rcases h1 : parseFactor f st with ⟨r1, st1⟩
      have e1 : st1.haveElse = st.haveElse := by
        have t := ihF st; rw [h1] at t; simpa using t
      rcases r1 with _ | e
      · simp [h1, skipToEoi_haveElse, e1]
      · simp [h1, ihTL, e1]
    have hTL : ∀ l st, ((termLoop (f + 1) l st).2).haveElse = st.haveElse := by
      intro l st
      rw [termLoop]
      dsimp only
      split
      · rcases h1 : parseFactor f (advance st) with ⟨r1, st1⟩
        have e1 : st1.haveElse = st.haveElse := by
          have t := ihF (advance st); rw [h1] at t; simpa [advance] using t
        rcases r1 with _ | e
        · simp [h1, skipToEoi_haveElse, e1]
        · simp [h1, ihTL, e1]
      · rfl
    have hE : ∀ st, ((parseExpr (f + 1) st).2).haveElse = st.haveElse := by
      intro st
      rw [parseExpr]
      rcases h1 : parseTerm f st with ⟨r1, st1⟩
      have e1 : st1.haveElse = st.haveElse := by
        have t := ihT st; rw [h1] at t; simpa using t
      rcases r1 with _ | e
      · simp [h1, skipToEoi_haveElse, e1]
      · simp [h1, ihEL, e1]
    have hEL : ∀ l st, ((exprLoop (f + 1) l st).2).haveElse = st.haveElse := by
      intro l st
      rw [exprLoop]
      dsimp only
      split
      · rcases h1 : parseTerm f (advance st) with ⟨r1, st1⟩
        have e1 : st1.haveElse = st.haveElse := by
          have t := ihT (advance st); rw [h1] at t; simpa [advance] using t
        rcases r1 with _ | e
        · simp [h1, skipToEoi_haveElse, e1]
        · simp [h1, ihEL, e1]
      · rfl
    exact ⟨hE, hEL, hT, hTL, hF, hFL, hFin⟩

theorem parseExpr_haveElse (f : Nat) (st : PState) :
    ((parseExpr f st).2).haveElse = st.haveElse := (heArith f).1 st

theorem heLogic : ∀ f : Nat,
    (∀ st, ((parseComparison f st).2).haveElse = st.haveElse) ∧
    (∀ st, ((parseLogic f st).2).haveElse = st.haveElse) ∧
    (∀ l st, ((logicLoop f l st).2).haveElse = st.haveElse) := by
  intro f
  induction f with
  | zero => exact ⟨fun st => rfl, fun st => rfl, fun l st => rfl⟩
  | succ f ih =>
    obtain ⟨ihC, ihL, ihLL⟩ := ih
    have hC : ∀ st, ((parseComparison (f + 1) st).2).haveElse = st.haveElse := by
      intro st
      rw [parseComparison]
      dsimp only
      split
      · rcases h1 : parseLogic f (advance st) with ⟨r1, st2⟩
        have e1 : st2.haveElse = st.haveElse := by
          have t := ihL (advance st); rw [h1] at t; simpa [advance] using t
        rcases r1 with _ | res
        · simp [h1, skipToEoi_haveElse, e1]
        · rcases h2 : consume TokenKind.r_paren st2 with ⟨b, st3⟩
          have e2 : st3.haveElse = st2.haveElse := by
            have t := consume_haveElse TokenKind.r_paren st2; rw [h2] at t; simpa using t
          rcases b <;> simp [h1, h2, skipToEoi_haveElse, e1, e2]
      · split
        · rfl
        · split
          · rfl
          · split
            · rfl
            · rcases h1 : parseExpr f st with ⟨r1, st1⟩
              have e1 : st1.haveElse = st.haveElse := by
                have t := parseExpr_haveElse f st; rw [h1] at t; simpa using t
              rcases r1 with _ | left
              · simp [h1, skipToEoi_haveElse, e1]
              · simp only [h1]
                split
                · simp [skipToEoi_haveElse, error, e1]
                · rcases h2 : parseExpr f (advance st1) with ⟨r2, st3⟩
                  have e2 : st3.haveElse = st1.haveElse := by
                    have t := parseExpr_haveElse f (advance st1); rw [h2] at t
                    simpa [advance] using t
                  rcases r2 with _ | right
                  · simp [h2, skipToEoi_haveElse, e1, e2]
                  · simp [h2, e1, e2]
    have hL : ∀ st, ((parseLogic (f + 1) st).2).haveElse = st.haveElse := by
      intro st
      rw [parseLogic]
      rcases h1 : parseComparison f st with ⟨r1, st1⟩
      have e1 : st1.haveElse = st.haveElse := by
        have t := ihC st; rw [h1] at t; simpa using t
      rcases r1 with _ | left
      · simp [h1, skipToEoi_haveElse, e1]
      · simp [h1, ihLL, e1]
    have hLL : ∀ l st, ((logicLoop (f + 1) l st).2).haveElse = st.haveElse := by
      intro l st
      rw [logicLoop]
      dsimp only
      split
      · rcases h1 : parseComparison f (advance st) with ⟨r1, st1⟩
        have e1 : st1.haveElse = st.haveElse := by
          have t := ihC (advance st); rw [h1] at t; simpa [advance] using t
        rcases r1 with _ | right
        · simp [h1, skipToEoi_haveElse, e1]
        · simp [h1, ihLL, e1]
      · rfl
    exact ⟨hC, hL, hLL⟩

theorem parseLogic_haveElse (f : Nat) (st : PState) :
    ((parseLogic f st).2).haveElse = st.haveElse := (heLogic f).2.1 st

theorem assignTail_haveElse (fuel : Nat) (ak : AssignKind) (fn : Expr) (st : PState) :
    ((assignTail fuel ak fn st).2).haveElse = st.haveElse := by
  rw [assignTail]
  rcases h1 : parseExpr fuel (advance st) with ⟨r1, st2⟩
  have e1 : st2.haveElse = st.haveElse := by
    have t := parseExpr_haveElse fuel (advance st); rw [h1] at t; simpa [advance] using t
  rcases r1 with _ | e <;> simp [h1, skipToEoi_haveElse, e1]

theorem parseFinal_haveElse (f : Nat) (st : PState) :
    ((parseFinal f st).2).haveElse = st.haveElse := (heArith f).2.2.2.2.2.2 st

theorem parseAssign_haveElse (fuel : Nat) (st : PState) :
    ((parseAssign fuel st).2).haveElse = st.haveElse := by
  rw [parseAssign]
  rcases h1 : parseFinal fuel st with ⟨r1, st1⟩
  have e1 : st1.haveElse = st.haveElse := by
    have t := parseFinal_haveElse fuel st; rw [h1] at t; simpa using t
  rcases r1 with _ | fn
  · simp [h1, skipToEoi_haveElse, e1]
  · simp only [h1]
    split
    · rcases h2 : parseLogic fuel (advance st1) with ⟨r2, st3⟩
      have e2 : st3.haveElse = st1.haveElse := by
        have t := parseLogic_haveElse fuel (advance st1); rw [h2] at t; simpa [advance] using t
      rcases r2 with _ | l
      · simp only [h2]
        rw [assignTail_haveElse]
        simpa [e2] using e1
      · simp [h2, e2, e1]
    · split
      · simp [assignTail_haveElse, e1]
      · split
        · simp [assignTail_haveElse, e1]
        · split
          · simp [assignTail_haveElse, e1]
          · split
            · simp [assignTail_haveElse, e1]
            · simp [skipToEoi_haveElse, error, e1]

theorem assignBlock_haveElse : ∀ (f : Nat) (acc : List Assignment) (st : PState),
    ((assignBlock f acc st).2).haveElse = st.haveElse := by
  intro f
  induction f with
  | zero => intro acc st; rfl
  | succ f ih =>
    intro acc st
    rw [assignBlock]
    split
    · rfl
    · rcases h1 : parseAssign f st with ⟨r1, st1⟩
      have e1 : st1.haveElse = st.haveElse := by
        have t := parseAssign_haveElse f st; rw [h1] at t; simpa using t
      rcases r1 with _ | a
      · simp [h1, skipToEoi_haveElse, e1]
      · rcases h2 : expect TokenKind.semicolon st1 with ⟨b, st2⟩
        have e2 : st2.haveElse = st1.haveElse := by
          have t := expect_haveElse TokenKind.semicolon st1; rw [h2] at t; simpa using t
        rcases b <;> simp [h1, h2, skipToEoi_haveElse, ih, advance_haveElse, e1, e2]

theorem elifLoop_haveElse : ∀ (f : Nat) (acc : List ElifNode) (st : PState),
    ((elifLoop f acc st).2).haveElse = st.haveElse := by
  intro f
  induction f with
  | zero => intro acc st; rfl
  | succ f ih =>
    intro acc st
    rw [elifLoop]
    dsimp only
    split
    · rcases h1 : parseLogic f (advance st) with ⟨r1, st2⟩
      have e1 : st2.haveElse = st.haveElse := by
        have t := parseLogic_haveElse f (advance st); rw [h1] at t; simpa [advance] using t
      rcases r1 with _ | c
      · simp [h1, skipToEoi_haveElse, e1]
      · rcases h2 : expect TokenKind.colon st2 with ⟨b2, st3⟩
        have e2 : st3.haveElse = st2.haveElse := by
          have t := expect_haveElse TokenKind.colon st2; rw [h2] at t; simpa using t
        rcases b2
        · rcases h3 : expect TokenKind.KW_begin (advance st3) with ⟨b3, st5⟩
          have e3 : st5.haveElse = st3.haveElse := by
            have t := expect_haveElse TokenKind.KW_begin (advance st3); rw [h3] at t
            simpa [advance] using t
          rcases b3
          · rcases h4 : assignBlock f [] (advance st5) with ⟨r4, st7⟩
            have e4 : st7.haveElse = st5.haveElse := by
              have t := assignBlock_haveElse f [] (advance st5); rw [h4] at t
              simpa [advance] using t
            rcases r4 with _ | asgs
            · simp [h1, h2, h3, h4, skipToEoi_haveElse, e1, e2, e3, e4]
            · simp [h1, h2, h3, h4, ih, advance_haveElse, e1, e2, e3, e4]
          · simp [h1, h2, h3, skipToEoi_haveElse, e1, e2, e3]
        · simp [h1, h2, skipToEoi_haveElse, e1, e2]
    · rfl

theorem assignBlock_end : ∀ (f : Nat) (acc : List Assignment) (st : PState)
    (acc' : List Assignment) (st' : PState),
    assignBlock f acc st = (some acc', st') → (curTok st').kind = .KW_end := by
  intro f
  induction f with
  | zero => intro acc st acc' st' h; simp [assignBlock] at h
  | succ f ih =>
    intro acc st acc' st' h
    rw [assignBlock] at h
    split at h
    · rename_i hEnd
      simp only [Prod.mk.injEq, Option.some.injEq] at h
      obtain ⟨rfl, rfl⟩ := h
      simpa using hEnd
    · rcases h1 : parseAssign f st with ⟨r1, st1⟩
      simp only [h1] at h
      rcases r1 with _ | a
      · simp at h
      · rcases h2 : expect TokenKind.semicolon st1 with ⟨b, st2⟩
        simp only [h2] at h
        rcases b
        · exact ih _ _ _ _ h
        · simp at h


theorem prevIsEnd_advance_of_end (st : PState) (h : (curTok st).kind = .KW_end) :
    prevIsEnd (advance st) := by
  refine ⟨by simp [advance], ?_⟩
  simpa [advance, curTok] using h

theorem elifLoop_prevEnd : ∀ (f : Nat) (acc : List ElifNode) (st : PState)
    (acc' : List ElifNode) (st' : PState),
    elifLoop f acc st = (some acc', st') → prevIsEnd st → prevIsEnd st' := by
  intro f
  induction f with
  | zero => intro acc st acc' st' h; simp [elifLoop] at h
  | succ f ih =>
    intro acc st acc' st' h hp
    rw [elifLoop] at h
    dsimp only at h
    split at h
    · rcases h1 : parseLogic f (advance st) with ⟨r1, st2⟩
      simp only [h1] at h
      rcases r1 with _ | c
      · simp at h
      · rcases h2 : expect TokenKind.colon st2 with ⟨b2, st3⟩
        simp only [h2] at h
        rcases b2
        · rcases h3 : expect TokenKind.KW_begin (advance st3) with ⟨b3, st5⟩
          simp only [h3] at h
          rcases b3
          · rcases h4 : assignBlock f [] (advance st5) with ⟨r4, st7⟩
            simp only [h4] at h
            rcases r4 with _ | asgs
            · simp at h
            · exact ih _ _ _ _ h (prevIsEnd_advance_of_end st7 (assignBlock_end f [] _ _ _ h4))
          · simp at h
        · simp at h
    · simp only [Prod.mk.injEq, Option.some.injEq] at h
      obtain ⟨rfl, rfl⟩ := h
      exact hp

theorem parseIf_terminator (fuel : Nat) (st0 : PState) (i : IfStmtNode) (st' : PState)
    (h : parseIf fuel st0 = (some i, st')) :
    (st'.haveElse = true → (curTok st').kind = .KW_end) ∧
    (st'.haveElse = false → prevIsEnd st') := by
  rw [parseIf] at h
  dsimp only at h
  rcases hex : expect TokenKind.KW_if { st0 with haveElse := false } with ⟨b0, st1⟩
  simp only [hex] at h
  have e0 : st1.haveElse = false := by
    have t := expect_haveElse TokenKind.KW_if { st0 with haveElse := false }
    rw [hex] at t; simpa using t
  rcases b0
  · rcases h1 : parseLogic fuel (advance st1) with ⟨r1, st3⟩
    simp only [h1] at h
    have e1 : st3.haveElse = false := by
      have t := parseLogic_haveElse fuel (advance st1); rw [h1] at t
      simpa [advance, e0] using t
    rcases r1 with _ | cond
    · simp at h
    · rcases h2 : expect TokenKind.colon st3 with ⟨b2, st4⟩
      simp only [h2] at h
      have e2 : st4.haveElse = false := by
        have t := expect_haveElse TokenKind.colon st3; rw [h2] at t; simpa [e1] using t
      rcases b2
      · rcases h3 : expect TokenKind.KW_begin (advance st4) with ⟨b3, st6⟩
        simp only [h3] at h
        have e3 : st6.haveElse = false := by
          have t := expect_haveElse TokenKind.KW_begin (advance st4); rw [h3] at t
          simpa [advance, e2] using t
        rcases b3
        · rcases h4 : assignBlock fuel [] (advance st6) with ⟨r4, st8⟩
          simp only [h4] at h
          have e4 : st8.haveElse = false := by
            have t := assignBlock_haveElse fuel [] (advance st6); rw [h4] at t
            simpa [advance, e3] using t
          rcases r4 with _ | ifAsgs
          · simp at h
          · rcases h5 : elifLoop fuel [] (advance st8) with ⟨r5, st10⟩
            simp only [h5] at h
            have e5 : st10.haveElse = false := by
              have t := elifLoop_haveElse fuel [] (advance st8); rw [h5] at t
              simpa [advance, e4] using t
            rcases r5 with _ | elifs
            · simp at h
            · have hprev10 : prevIsEnd st10 :=
                elifLoop_prevEnd fuel [] _ _ _ h5
                  (prevIsEnd_advance_of_end st8 (assignBlock_end fuel [] _ _ _ h4))
              by_cases hElse : (curTok st10).kind = TokenKind.KW_else
              · simp only [if_pos hElse] at h
                rcases h6 : expect TokenKind.colon
                    (advance { st10 with haveElse := true }) with ⟨b6, st12⟩
                simp only [h6] at h
                have e6 : st12.haveElse = true := by
                  have t := expect_haveElse TokenKind.colon (advance { st10 with haveElse := true })
                  rw [h6] at t; simpa [advance] using t
                rcases b6
                · rcases h7 : expect TokenKind.KW_begin (advance st12) with ⟨b7, st14⟩
                  simp only [h7] at h
                  have e7 : st14.haveElse = true := by
                    have t := expect_haveElse TokenKind.KW_begin (advance st12); rw [h7] at t
                    simpa [advance, e6] using t
                  rcases b7
                  · rcases h8 : assignBlock fuel [] (advance st14) with ⟨r8, st16⟩
                    simp only [h8] at h
                    have e8 : st16.haveElse = true := by
                      have t := assignBlock_haveElse fuel [] (advance st14); rw [h8] at t
                      simpa [advance, e7] using t
                    rcases r8 with _ | elseAsgs
                    · simp at h
                    · simp only [Prod.mk.injEq, Option.some.injEq] at h
                      obtain ⟨rfl, rfl⟩ := h
                      refine ⟨fun _ => assignBlock_end fuel [] _ _ _ h8, fun hfalse => ?_⟩
                      rw [e8] at hfalse
                      exact absurd hfalse (by simp)
                  · simp at h
                · simp at h
              · simp only [if_neg hElse] at h
                simp only [Prod.mk.injEq, Option.some.injEq] at h
                obtain ⟨rfl, rfl⟩ := h
                refine ⟨fun htrue => ?_, fun _ => hprev10⟩
                rw [e5] at htrue
                exact absurd htrue (by simp)
        · simp at h
      · simp at h
  · simp at h

theorem assignTail_none_atEoi (fuel : Nat) (ak : AssignKind) (fn : Expr) (st st' : PState)
    (h : assignTail fuel ak fn st = (none, st')) : atEoi st' := by
  rw [assignTail] at h
  rcases h1 : parseExpr fuel (advance st) with ⟨r1, st2⟩
  simp only [h1] at h
  rcases r1 with _ | e
  · simp only [Prod.mk.injEq] at h
    rw [← h.2]
    exact atEoi_skipToEoi st2
  · simp at h

theorem parseAssign_none_atEoi (fuel : Nat) (st st' : PState)
    (h : parseAssign fuel st = (none, st')) : atEoi st' := by
  rw [parseAssign] at h
  rcases h1 : parseFinal fuel st with ⟨r1, st1⟩
  simp only [h1] at h
  rcases r1 with _ | fn
  · simp only [Prod.mk.injEq] at h
    rw [← h.2]
    exact atEoi_skipToEoi st1
  · dsimp only at h
    split at h
    · rcases h2 : parseLogic fuel (advance st1) with ⟨r2, st3⟩
      simp only [h2] at h
      rcases r2 with _ | l
      · exact assignTail_none_atEoi fuel .Assign fn _ st' h
      · simp at h
    · split at h
      · exact assignTail_none_atEoi fuel .Plus_assign fn _ st' h
      · split at h
        · exact assignTail_none_atEoi fuel .Minus_assign fn _ st' h
        · split at h
          · exact assignTail_none_atEoi fuel .Star_assign fn _ st' h
          · split at h
            · exact assignTail_none_atEoi fuel .Slash_assign fn _ st' h
            · simp only [Prod.mk.injEq] at h
              rw [← h.2]
              exact atEoi_skipToEoi (error st1)

theorem programLoop_none_atEoi : ∀ (f : Nat) (acc : List Stmt) (st st' : PState),
    programLoop f acc st = (none, st') → st'.fuelOut = false → atEoi st' := by
  intro f
  induction f with
  | zero =>
    intro acc st st' h hf
    simp only [programLoop, Prod.mk.injEq] at h
    rw [← h.2] at hf
    simp [fuelFail] at hf
  | succ f ih =>
    intro acc st0 st' h hf
    rw [programLoop] at h
    split at h
    · simp at h
    · dsimp only at h
      split at h
      · rcases h1 : parseIntDec f { st0 with haveElse := true } with ⟨r1, st1⟩
        simp only [h1] at h
        rcases r1 with _ | d
        · simp only [Prod.mk.injEq] at h
          rw [← h.2]
          exact atEoi_skipToEoi st1
        · exact ih _ _ _ h hf
      · rcases h1 : parseBoolDec f { st0 with haveElse := true } with ⟨r1, st1⟩
        simp only [h1] at h
        rcases r1 with _ | d
        · simp only [Prod.mk.injEq] at h
          rw [← h.2]
          exact atEoi_skipToEoi st1
        · exact ih _ _ _ h hf
      · rcases h1 : parseUnary { st0 with haveElse := true } with ⟨r1, st1⟩
        rcases r1 with _ | u
        · simp only [h1] at h
          rcases h2 : parseAssign f { st1 with pos := st0.pos } with ⟨r2, st3⟩
          rcases r2 with _ | a
          · simp only [h2] at h
            split at h
            · simp only [Prod.mk.injEq] at h
              rw [← h.2]
              exact atEoi_skipToEoi st3
            · simp only [Prod.mk.injEq] at h
              rw [← h.2]
              exact atEoi_skipToEoi (error st3)
          · simp only [h2] at h
            split at h
            · exact ih _ _ _ h hf
            · simp only [Prod.mk.injEq] at h
              rw [← h.2]
              exact atEoi_skipToEoi (error st3)
        · simp only [h1] at h
          split at h
          · exact ih _ _ _ h hf
          · simp only [Prod.mk.injEq] at h
            rw [← h.2]
            exact atEoi_skipToEoi (error st1)
      · rcases h1 : parseIf f { st0 with haveElse := true } with ⟨r1, st1⟩
        simp only [h1] at h
        rcases r1 with _ | i
        · simp only [Prod.mk.injEq] at h
          rw [← h.2]
          exact atEoi_skipToEoi st1
        · exact ih _ _ _ h hf
      · rcases h1 : parseWhile f { st0 with haveElse := true } with ⟨r1, st1⟩
        simp only [h1] at h
        rcases r1 with _ | w
        · simp only [Prod.mk.injEq] at h
          rw [← h.2]
          exact atEoi_skipToEoi st1
        · exact ih _ _ _ h hf
      · rcases h1 : parseFor f { st0 with haveElse := true } with ⟨r1, st1⟩
        simp only [h1] at h
        rcases r1 with _ | l
        · simp only [Prod.mk.injEq] at h
          rw [← h.2]
          exact atEoi_skipToEoi st1
        · exact ih _ _ _ h hf
      · rcases h1 : parsePrint f { st0 with haveElse := true } with ⟨r1, st1⟩
        simp only [h1] at h
        rcases r1 with _ | p
        · simp only [Prod.mk.injEq] at h
          rw [← h.2]
          exact atEoi_skipToEoi st1
        · exact ih _ _ _ h hf
      · simp only [Prod.mk.injEq] at h
        rw [← h.2]
        exact atEoi_skipToEoi _

theorem decNames_spec : ∀ (f : Nat) (vars : List String) (count : Nat) (st : PState)
    (v' : List String) (c' : Nat) (st' : PState),
    decNames f vars count st = (some (v', c'), st') →
    v'.length + count = c' + vars.length ∧ vars.length ≤ v'.length := by
  intro f
  induction f with
  | zero => intro vars count st v' c' st' h; simp [decNames] at h
  | succ f ih =>
    intro vars count st v' c' st' h
    rw [decNames] at h
    split at h
    · rcases h1 : expect TokenKind.ident (advance st) with ⟨b1, st2⟩
      simp only [h1] at h
      rcases b1
      · have := ih _ _ _ _ _ _ h
        simp only [List.length_append, List.length_cons, List.length_nil] at this
        omega
      · simp at h
    · simp only [Prod.mk.injEq, Option.some.injEq] at h
      obtain ⟨⟨rfl, rfl⟩, rfl⟩ := h
      omega

theorem intDecInits_spec : ∀ (f : Nat) (values : List DeclInit) (count : Nat) (st : PState)
    (v' : List DeclInit) (c' : Nat) (st' : PState),
    intDecInits f values count st = (some (v', c'), st') →
    v'.length + c' = values.length + count := by
  intro f
  induction f with
  | zero => intro values count st v' c' st' h; simp [intDecInits] at h
  | succ f ih =>
    intro values count st v' c' st' h
    rw [intDecInits] at h
    split at h
    · split at h
      · simp at h
      · rcases h1 : parseExpr f (advance st) with ⟨r1, st2⟩
        simp only [h1] at h
        rcases r1 with _ | e
        · simp at h
        · rename_i hcount _
          have := ih _ _ _ _ _ _ h
          simp only [List.length_append, List.length_cons, List.length_nil] at this
          omega
    · simp only [Prod.mk.injEq, Option.some.injEq] at h
      obtain ⟨⟨rfl, rfl⟩, rfl⟩ := h
      omega

theorem boolDecInits_spec : ∀ (f : Nat) (values : List DeclInit) (count : Nat) (st : PState)
    (v' : List DeclInit) (c' : Nat) (st' : PState),
    boolDecInits f values count st = (some (v', c'), st') →
    v'.length + c' = values.length + count := by
  intro f
  induction f with
  | zero => intro values count st v' c' st' h; simp [boolDecInits] at h
  | succ f ih =>
    intro values count st v' c' st' h
    rw [boolDecInits] at h
    split at h
    · split at h
      · simp at h
      · rcases h1 : parseLogic f (advance st) with ⟨r1, st2⟩
        simp only [h1] at h
        rcases r1 with _ | l
        · simp at h
        · rename_i hcount _
          have := ih _ _ _ _ _ _ h
          simp only [List.length_append, List.length_cons, List.length_nil] at this
          omega
    · simp only [Prod.mk.injEq, Option.some.injEq] at h
      obtain ⟨⟨rfl, rfl⟩, rfl⟩ := h
      omega

theorem parseIntDec_le (fuel : Nat) (st : PState) (d : Declaration) (st' : PState)
    (h : parseIntDec fuel st = (some d, st')) : d.values.length ≤ d.vars.length := by
  rw [parseIntDec] at h
  rcases hex : expect TokenKind.KW_int st with ⟨b0, st1⟩
  simp only [hex] at h
  rcases b0
  · rcases hex2 : expect TokenKind.ident (advance st1) with ⟨b1, st3⟩
    simp only [hex2] at h
    rcases b1
    · rcases h1 : decNames fuel [(curTok st3).text] 1 (advance st3) with ⟨r1, st5⟩
      rcases r1 with _ | vc
      · simp only [h1] at h
        simp at h
      · rcases vc with ⟨vars, count⟩
        simp only [h1] at h
        have hn := decNames_spec fuel _ _ _ _ _ _ h1
        simp only [List.length_cons, List.length_nil] at hn
        split at h
        · rcases h2 : parseExpr fuel (advance st5) with ⟨r2, st6⟩
          simp only [h2] at h
          rcases r2 with _ | e
          · simp at h
          · rcases h3 : intDecInits fuel [DeclInit.arith e] (count - 1) st6 with ⟨r3, st7⟩
            rcases r3 with _ | vc2
            · simp only [h3] at h; simp at h
            · rcases vc2 with ⟨values, cleft⟩
              simp only [h3] at h
              have hi := intDecInits_spec fuel _ _ _ _ _ _ h3
              simp only [List.length_cons, List.length_nil] at hi
              rcases h4 : expect TokenKind.semicolon st7 with ⟨b4, st8⟩
              simp only [h4] at h
              rcases b4
              · simp only [Prod.mk.injEq, Option.some.injEq] at h
                obtain ⟨rfl, rfl⟩ := h
                simp only []
                omega
              · simp at h
        · rcases h4 : expect TokenKind.semicolon st5 with ⟨b4, st6⟩
          simp only [h4] at h
          rcases b4
          · simp only [Prod.mk.injEq, Option.some.injEq] at h
            obtain ⟨rfl, rfl⟩ := h
            simp
          · simp at h
    · simp at h
  · simp at h

theorem parseBoolDec_le (fuel : Nat) (st : PState) (d : Declaration) (st' : PState)
    (h : parseBoolDec fuel st = (some d, st')) : d.values.length ≤ d.vars.length := by
  rw [parseBoolDec] at h
  rcases hex : expect TokenKind.KW_bool st with ⟨b0, st1⟩
  simp only [hex] at h
  rcases b0
  · rcases hex2 : expect TokenKind.ident (advance st1) with ⟨b1, st3⟩
    simp only [hex2] at h
    rcases b1
    · rcases h1 : decNames fuel [(curTok st3).text] 1 (advance st3) with ⟨r1, st5⟩
      rcases r1 with _ | vc
      · simp only [h1] at h
        simp at h
      · rcases vc with ⟨vars, count⟩
        simp only [h1] at h
        have hn := decNames_spec fuel _ _ _ _ _ _ h1
        simp only [List.length_cons, List.length_nil] at hn
        split at h
        · rcases h2 : parseLogic fuel (advance st5) with ⟨r2, st6⟩
          simp only [h2] at h
          rcases r2 with _ | l
          · simp at h
          · rcases h3 : boolDecInits fuel [DeclInit.logic l] (count - 1) st6 with ⟨r3, st7⟩
            rcases r3 with _ | vc2
            · simp only [h3] at h; simp at h
            · rcases vc2 with ⟨values, cleft⟩
              simp only [h3] at h
              have hi := boolDecInits_spec fuel _ _ _ _ _ _ h3
              simp only [List.length_cons, List.length_nil] at hi
              rcases h4 : expect TokenKind.semicolon st7 with ⟨b4, st8⟩
              simp only [h4] at h
              rcases b4
              · simp only [Prod.mk.injEq, Option.some.injEq] at h
                obtain ⟨rfl, rfl⟩ := h
                simp only []
                omega
              · simp at h
        · rcases h4 : expect TokenKind.semicolon st5 with ⟨b4, st6⟩
          simp only [h4] at h
          rcases b4
          · simp only [Prod.mk.injEq, Option.some.injEq] at h
            obtain ⟨rfl, rfl⟩ := h
            simp
          · simp at h
    · simp at h
  · simp at h

theorem parseComparison_ident_step (f : Nat) (st : PState)
    (h : (curTok st).kind = .ident) :
    parseComparison (f + 1) st =
      (some (.cmp (mkComparison none none .Ident (curTok st).text)), advance st) := by
  rw [parseComparison]
  simp [h]

theorem parseComparison_rel_not_ident (f : Nat) (st : PState) (c : ComparisonNode) (st' : PState)
    (h : parseComparison f st = (some (.cmp c), st')) (hl : c.left.isSome = true) :
    (curTok st).kind ≠ .ident := by
  intro hid
  cases f with
  | zero => simp [parseComparison] at h
  | succ f =>
    rw [parseComparison_ident_step f st hid] at h
    simp only [Prod.mk.injEq, Option.some.injEq, Logic.cmp.injEq] at h
    rw [← h.1] at hl
    simp [mkComparison] at hl


theorem drop_succ_of_drop (l : List Token) (p : Nat) (t : Token) (ts : List Token)
    (h : l.drop p = t :: ts) : l.drop (p + 1) = ts := by
  rw [← List.tail_drop, h]
  rfl

theorem parseIntDec_block (f : Nat) (toks : List Token) (pos diags : Nat) (he fo : Bool)
    (rest : List Token) (hd : toks.drop pos = intDeclToks ++ rest) :
    parseIntDec (f + 1) ⟨toks, pos, diags, he, fo⟩ =
      (some ⟨["a"], []⟩, ⟨toks, pos + 2, diags, he, fo⟩) := by
  rw [intDeclToks] at hd
  have hd1 : toks.drop (pos + 1) = ⟨.ident, "a"⟩ :: ⟨.semicolon, ";"⟩ :: rest :=
    drop_succ_of_drop _ _ _ _ hd
  have hd2 : toks.drop (pos + 2) = ⟨.semicolon, ";"⟩ :: rest := by
    have := drop_succ_of_drop _ _ _ _ hd1
    simpa [Nat.add_assoc] using this
  simp [parseIntDec, expect, advance, decNames, curTok, hd, hd1, hd2]

theorem declLoop_replicate : ∀ (n f : Nat) (acc : List Stmt) (toks : List Token)
    (pos diags : Nat) (he fo : Bool),
    toks.drop pos = declBlocks n → n + 1 ≤ f →
    ∃ st', programLoop f acc ⟨toks, pos, diags, he, fo⟩ =
      (some ⟨acc ++ List.replicate n (Stmt.decl ⟨["a"], []⟩)⟩, st') := by
  intro n
  induction n with
  | zero =>
    intro f acc toks pos diags he fo hd hf
    obtain ⟨g, rfl⟩ : ∃ g, f = g + 1 := ⟨f - 1, by omega⟩
    refine ⟨⟨toks, pos, diags, he, fo⟩, ?_⟩
    have hd0 : toks.drop pos = [] := by simpa [declBlocks] using hd
    rw [programLoop]
    rw [if_pos (by simp [curTok, hd0, eoiTok])]
    simp
  | succ n ih =>
    intro f acc toks pos diags he fo hd hf
    obtain ⟨g, rfl⟩ : ∃ g, f = g + 1 + 1 := ⟨f - 2, by omega⟩
    have hdblk : toks.drop pos = intDeclToks ++ declBlocks n := by
      rw [hd]; simp [declBlocks, List.replicate_succ]
    have hcurT : (toks.drop pos).headD eoiTok = ⟨.KW_int, "int"⟩ := by
      rw [intDeclToks] at hdblk; simp [hdblk]
    have hblk := parseIntDec_block g toks pos diags true fo (declBlocks n) hdblk
    have hd3 : toks.drop (pos + 2 + 1) = declBlocks n := by
      rw [intDeclToks] at hdblk
      have t1 := drop_succ_of_drop _ _ _ _ hdblk
      have t2 := drop_succ_of_drop _ _ _ _ t1
      have t3 := drop_succ_of_drop _ _ _ _ t2
      have hidx : pos + 1 + 1 + 1 = pos + 2 + 1 := by omega
      rw [hidx] at t3
      exact t3
    obtain ⟨st', hrec⟩ := ih (g + 1) (acc ++ [Stmt.decl ⟨["a"], []⟩]) toks (pos + 2 + 1)
      diags true fo hd3 (by omega)
    refine ⟨st', ?_⟩
    rw [programLoop]
    rw [if_neg (by simp only [curTok]; rw [hcurT]; simp)]
    have hcur1 : curTok ⟨toks, pos, diags, true, fo⟩ = ⟨.KW_int, "int"⟩ := by
      simp only [curTok]; exact hcurT
    simp only [hcur1]
    simp only [hblk]
    show programLoop (g + 1) (acc ++ [Stmt.decl ⟨["a"], []⟩]) ⟨toks, pos + 2 + 1, diags, true, fo⟩ = _
    rw [hrec]
    simp [List.replicate_succ, List.append_assoc]


theorem specProgram_declBlocks : ∀ n : Nat, SpecProgramToks (declBlocks n) n := by
  intro n
  induction n with
  | zero => exact SpecProgramToks.nil
  | succ n ih =>
    exact SpecProgramToks.cons intDeclToks (declBlocks n) n
      (SpecStmtToks.declNoInit ⟨.KW_int, "int"⟩ ⟨.ident, "a"⟩ [] ⟨.semicolon, ";"⟩
        (Or.inl rfl) rfl SpecNameTailToks.nil rfl) ih

theorem atEoiArith : ∀ f : Nat,
    (∀ st st', parseExpr f st = (none, st') → st'.fuelOut = false → atEoi st') ∧
    (∀ l st st', exprLoop f l st = (none, st') → st'.fuelOut = false → atEoi st') ∧
    (∀ st st', parseTerm f st = (none, st') → st'.fuelOut = false → atEoi st') ∧
    (∀ l st st', termLoop f l st = (none, st') → st'.fuelOut = false → atEoi st') ∧
    (∀ st st', parseFactor f st = (none, st') → st'.fuelOut = false → atEoi st') ∧
    (∀ l st st', factorLoop f l st = (none, st') → st'.fuelOut = false → atEoi st') ∧
    (∀ st st', parseFinal f st = (none, st') → st'.fuelOut = false → atEoi st') := by
  intro f
  induction f with
  | zero =>
    refine ⟨?_, ?_, ?_, ?_, ?_, ?_, ?_⟩ <;>
      (intros
       rename_i h hf
       first
       | (simp only [parseExpr, exprLoop, parseTerm, termLoop, parseFactor, factorLoop,
            parseFinal, Prod.mk.injEq] at h
          rw [← h.2] at hf
          simp [fuelFail] at hf))
  | succ f ih =>
    obtain ⟨ihE, ihEL, ihT, ihTL, ihF, ihFL, ihFin⟩ := ih
    refine ⟨?_, ?_, ?_, ?_, ?_, ?_, ?_⟩
    · intro st st' h hf
      rw [parseExpr] at h
      repeat' split at h
      all_goals (first
        | (simp only [Prod.mk.injEq] at h; exact h.2 ▸ atEoi_skipToEoi _)
        | simp at h
        | exact ihEL _ _ _ h hf)
    · intro l st st' h hf
      rw [exprLoop] at h
      split at h
      · rcases h1 : parseTerm f (advance st) with ⟨r1, st2⟩
        rcases r1 with _ | right
        · simp only [h1, Prod.mk.injEq] at h
          exact h.2 ▸ atEoi_skipToEoi _
        · simp only [h1] at h
          exact ihEL _ _ _ h hf
      · simp at h
    · intro st st' h hf
      rw [parseTerm] at h
      repeat' split at h
      all_goals (first
        | (simp only [Prod.mk.injEq] at h; exact h.2 ▸ atEoi_skipToEoi _)
        | simp at h
        | exact ihTL _ _ _ h hf)
    · intro l st st' h hf
      rw [termLoop] at h
      split at h
      · rcases h1 : parseFactor f (advance st) with ⟨r1, st2⟩
        rcases r1 with _ | right
        · simp only [h1, Prod.mk.injEq] at h
          exact h.2 ▸ atEoi_skipToEoi _
        · simp only [h1] at h
          exact ihTL _ _ _ h hf
      · simp at h
    · intro st st' h hf
      rw [parseFactor] at h
      repeat' split at h
      all_goals (first
        | (simp only [Prod.mk.injEq] at h; exact h.2 ▸ atEoi_skipToEoi _)
        | simp at h
        | exact ihFL _ _ _ h hf)
    · intro l st st' h hf
      rw [factorLoop] at h
      split at h
      · rcases h1 : parseFactor f (advance st) with ⟨r1, st2⟩
        rcases r1 with _ | right
        · simp only [h1, Prod.mk.injEq] at h
          exact h.2 ▸ atEoi_skipToEoi _
        · simp only [h1] at h
          exact ihFL _ _ _ h hf
      · simp at h
    · intro st st' h hf
      rw [parseFinal] at h
      split at h
      all_goals try dsimp only at h
      all_goals repeat' split at h
      all_goals (first
        | (simp only [Prod.mk.injEq] at h; exact h.2 ▸ atEoi_skipToEoi _)
        | simp at h)

theorem atEoiLogic : ∀ f : Nat,
    (∀ st st', parseComparison f st = (none, st') → st'.fuelOut = false → atEoi st') ∧
    (∀ st st', parseLogic f st = (none, st') → st'.fuelOut = false → atEoi st') ∧
    (∀ l st st', logicLoop f l st = (none, st') → st'.fuelOut = false → atEoi st') := by
  intro f
  induction f with
  | zero =>
    refine ⟨?_, ?_, ?_⟩ <;>
      (intros
       rename_i h hf
       simp only [parseComparison, parseLogic, logicLoop, Prod.mk.injEq] at h
       rw [← h.2] at hf
       simp [fuelFail] at hf)
  | succ f ih =>
    obtain ⟨ihC, ihL, ihLL⟩ := ih
    refine ⟨?_, ?_, ?_⟩
    · intro st st' h hf
      rw [parseComparison] at h
      repeat' (first | split at h | dsimp only at h)
      all_goals (first
        | (simp only [Prod.mk.injEq] at h; exact h.2 ▸ atEoi_skipToEoi _)
        | simp at h)
    · intro st st' h hf
      rw [parseLogic] at h
      repeat' split at h
      all_goals (first
        | (simp only [Prod.mk.injEq] at h; exact h.2 ▸ atEoi_skipToEoi _)
        | simp at h
        | exact ihLL _ _ _ h hf)
    · intro l st st' h hf
      rw [logicLoop] at h
      split at h
      · rcases h1 : parseComparison f (advance st) with ⟨r1, st2⟩
        rcases r1 with _ | right
        · simp only [h1, Prod.mk.injEq] at h
          exact h.2 ▸ atEoi_skipToEoi _
        · simp only [h1] at h
          exact ihLL _ _ _ h hf
      · simp at h

theorem parseUnary_none_atEoi (st st' : PState) (h : parseUnary st = (none, st')) :
    atEoi st' := by
  rw [parseUnary] at h
  repeat' (first | split at h | dsimp only at h)
  all_goals (first
    | (simp only [Prod.mk.injEq] at h; exact h.2 ▸ atEoi_skipToEoi _)
    | simp at h)

theorem parseIntDec_none_atEoi (fuel : Nat) (st st' : PState)
    (h : parseIntDec fuel st = (none, st')) : atEoi st' := by
  rw [parseIntDec] at h
  repeat' (first | split at h | dsimp only at h)
  all_goals (first
    | (simp only [Prod.mk.injEq] at h; exact h.2 ▸ atEoi_skipToEoi _)
    | simp at h)

theorem parseBoolDec_none_atEoi (fuel : Nat) (st st' : PState)
    (h : parseBoolDec fuel st = (none, st')) : atEoi st' := by
  rw [parseBoolDec] at h
  repeat' (first | split at h | dsimp only at h)
  all_goals (first
    | (simp only [Prod.mk.injEq] at h; exact h.2 ▸ atEoi_skipToEoi _)
    | simp at h)

theorem parseIf_none_atEoi (fuel : Nat) (st st' : PState)
    (h : parseIf fuel st = (none, st')) : atEoi st' := by
  rw [parseIf] at h
  repeat' (first | split at h | dsimp only at h)
  all_goals (first
    | (simp only [Prod.mk.injEq] at h; exact h.2 ▸ atEoi_skipToEoi _)
    | simp at h)

theorem parseIter_none_atEoi (fuel : Nat) (st st' : PState)
    (h : parseIter fuel st = (none, st')) : atEoi st' := by
  rw [parseIter] at h
  repeat' (first | split at h | dsimp only at h)
  all_goals (first
    | (simp only [Prod.mk.injEq] at h; exact h.2 ▸ atEoi_skipToEoi _)
    | simp at h)

theorem parseWhile_none_atEoi (fuel : Nat) (st st' : PState)
    (h : parseWhile fuel st = (none, st')) : atEoi st' := by
  rw [parseWhile] at h
  repeat' (first | split at h | dsimp only at h)
  all_goals (first
    | (simp only [Prod.mk.injEq] at h; exact h.2 ▸ atEoi_skipToEoi _)
    | simp at h)

theorem parseFor_none_atEoi (fuel : Nat) (st st' : PState)
    (h : parseFor fuel st = (none, st')) : atEoi st' := by
  rw [parseFor] at h
  repeat' (first | split at h | dsimp only at h)
  all_goals (first
    | (simp only [Prod.mk.injEq] at h; exact h.2 ▸ atEoi_skipToEoi _)
    | simp at h)

theorem parsePrint_none_atEoi (fuel : Nat) (st st' : PState)
    (h : parsePrint fuel st = (none, st')) : atEoi st' := by
  rw [parsePrint] at h
  repeat' (first | split at h | dsimp only at h)
  all_goals (first
    | (simp only [Prod.mk.injEq] at h; exact h.2 ▸ atEoi_skipToEoi _)
    | simp at h)

/-! ## Claim theorems -/

/-- C1, counterexample: the token sequence of `x = y + z ;` conforms to the
grammar of section 4.4 (one top-level assignment statement), yet `parse`
returns the absent signal: the logic trial parse succeeds on the bare
identifier `y` and the statement loop then fails at `+`. -/
theorem C1_counterexample :
    SpecProgramToks assignIdentArithToks 1 ∧ (parse assignIdentArithToks).1 = none := by
  constructor
  · have he : SpecExprToks [⟨.ident, "y"⟩, ⟨.plus, "+"⟩, ⟨.ident, "z"⟩] :=
      SpecExprToks.add [⟨.ident, "y"⟩] ⟨.plus, "+"⟩ [⟨.ident, "z"⟩]
        (.base _ (.base _ (.base _ (.id _ rfl)))) (Or.inl rfl)
        (.base _ (.base _ (.id _ rfl)))
    have ha : SpecAssignToks
        [⟨.ident, "x"⟩, ⟨.assign, "="⟩, ⟨.ident, "y"⟩, ⟨.plus, "+"⟩, ⟨.ident, "z"⟩] :=
      SpecAssignToks.arithRhs ⟨.ident, "x"⟩ ⟨.assign, "="⟩ _ rfl rfl he
    have hs : SpecStmtToks assignIdentArithToks :=
      SpecStmtToks.assign
        [⟨.ident, "x"⟩, ⟨.assign, "="⟩, ⟨.ident, "y"⟩, ⟨.plus, "+"⟩, ⟨.ident, "z"⟩]
        ⟨.semicolon, ";"⟩ ha rfl
    have := SpecProgramToks.cons assignIdentArithToks [] 0 hs SpecProgramToks.nil
    simpa using this
  · rfl

/-- C1, amended: `parse` rejects some grammar-conforming inputs (see the
counterexample), so the claim holds on the accepted ones: for every `n`, the
well-formed source consisting of `n` declarations `int a ;` parses to a
non-absent Program whose statement sequence has exactly `n` entries, the
number of top-level statements of the source. -/
theorem C1_amended : ∀ n : Nat, SpecProgramToks (declBlocks n) n ∧
    ∃ st', parseProgram (n + 1 + 1) (initState (declBlocks n)) =
      (some ⟨List.replicate n (Stmt.decl ⟨["a"], []⟩)⟩, st') ∧
      (List.replicate n (Stmt.decl ⟨["a"], []⟩)).length = n := by
  intro n
  refine ⟨specProgram_declBlocks n, ?_⟩
  obtain ⟨st', h⟩ := declLoop_replicate n (n + 1 + 1) [] (declBlocks n) 0 0 false false
    (by simp) (by omega)
  refine ⟨st', ?_, by simp⟩
  simpa [parseProgram, initState] using h

/-- C2, counterexample: on the erroneous input `int a = + ;` the whole parse
fails and discards the input, but no diagnostic at all is emitted (the
`parseFinal` sign branches and the initializer and statement-loop paths all
reach their panic handler without calling `error`), contradicting the claim
that the first failing routine reports one diagnostic. -/
theorem C2_counterexample :
    (parse intLoneSignToks).1 = none ∧ (parse intLoneSignToks).2.diags = 0 ∧
      atEoi (parse intLoneSignToks).2 :=
  ⟨rfl, rfl, by rw [show (parse intLoneSignToks).2 = skipToEoi (parse intLoneSignToks).2 from rfl]; exact atEoi_skipToEoi _⟩

/-- C2, amended: every parse routine's error path discards all remaining
tokens until the end-of-input sentinel, and the absent signal propagates so
that the top-level parse returns the absent signal with no partial AST — but
the diagnostic clauses of the claim do not hold: the first failing routine
may report no diagnostic at all (see the counterexample), a single failing
routine may report two (on `x = ( 1 :` the trial logic parse's diagnostic is
not retracted and the arithmetic reparse adds its own), and an enclosing
rule may add its own diagnostic upon receiving the absent signal (on
`x 5 ;` the statement loop's terminator check reports after the failed
assignment, for two diagnostics in total). -/
theorem C2_amended :
    (∀ (fuel : Nat) (st st' : PState), parseProgram fuel st = (none, st') →
      st'.fuelOut = false → atEoi st') ∧
    (∀ (fuel : Nat) (st st' : PState), parseExpr fuel st = (none, st') →
      st'.fuelOut = false → atEoi st') ∧
    (∀ (fuel : Nat) (st st' : PState), parseTerm fuel st = (none, st') →
      st'.fuelOut = false → atEoi st') ∧
    (∀ (fuel : Nat) (st st' : PState), parseFactor fuel st = (none, st') →
      st'.fuelOut = false → atEoi st') ∧
    (∀ (fuel : Nat) (st st' : PState), parseFinal fuel st = (none, st') →
      st'.fuelOut = false → atEoi st') ∧
    (∀ (fuel : Nat) (st st' : PState), parseComparison fuel st = (none, st') →
      st'.fuelOut = false → atEoi st') ∧
    (∀ (fuel : Nat) (st st' : PState), parseLogic fuel st = (none, st') →
      st'.fuelOut = false → atEoi st') ∧
    (∀ (fuel : Nat) (st st' : PState), parseAssign fuel st = (none, st') → atEoi st') ∧
    (∀ (st st' : PState), parseUnary st = (none, st') → atEoi st') ∧
    (∀ (fuel : Nat) (st st' : PState), parseIntDec fuel st = (none, st') → atEoi st') ∧
    (∀ (fuel : Nat) (st st' : PState), parseBoolDec fuel st = (none, st') → atEoi st') ∧
    (∀ (fuel : Nat) (st st' : PState), parseIf fuel st = (none, st') → atEoi st') ∧
    (∀ (fuel : Nat) (st st' : PState), parseIter fuel st = (none, st') → atEoi st') ∧
    (∀ (fuel : Nat) (st st' : PState), parseWhile fuel st = (none, st') → atEoi st') ∧
    (∀ (fuel : Nat) (st st' : PState), parseFor fuel st = (none, st') → atEoi st') ∧
    (∀ (fuel : Nat) (st st' : PState), parsePrint fuel st = (none, st') → atEoi st') ∧
    ((parse identNumToks).1 = none ∧ (parse identNumToks).2.diags = 2) ∧
    ((parseAssign 20 (initState assignParenColonToks)).1 = none ∧
      (parseAssign 20 (initState assignParenColonToks)).2.diags = 2) :=
  ⟨fun fuel st st' h hf => programLoop_none_atEoi fuel [] st st' h hf,
   fun fuel st st' h hf => (atEoiArith fuel).1 st st' h hf,
   fun fuel st st' h hf => (atEoiArith fuel).2.2.1 st st' h hf,
   fun fuel st st' h hf => (atEoiArith fuel).2.2.2.2.1 st st' h hf,
   fun fuel st st' h hf => (atEoiArith fuel).2.2.2.2.2.2 st st' h hf,
   fun fuel st st' h hf => (atEoiLogic fuel).1 st st' h hf,
   fun fuel st st' h hf => (atEoiLogic fuel).2.1 st st' h hf,
   parseAssign_none_atEoi,
   parseUnary_none_atEoi,
   parseIntDec_none_atEoi,
   parseBoolDec_none_atEoi,
   parseIf_none_atEoi,
   parseIter_none_atEoi,
   parseWhile_none_atEoi,
   parseFor_none_atEoi,
   parsePrint_none_atEoi,
   ⟨rfl, rfl⟩,
   ⟨rfl, rfl⟩⟩

/-- C2, witness: the amended theorem applied to the concrete failing input
`int a = + ;`. -/
theorem C2_witness : atEoi (parse intLoneSignToks).2 :=
  C2_amended.1 (fuelFor intLoneSignToks) (initState intLoneSignToks)
    (parse intLoneSignToks).2 (by rfl) (by rfl)

/-- C3, counterexample: on `x = y + z ;` the trial logic parse does not fail
and fall back to arithmetic; it succeeds after consuming only `y` (a bare
identifier is a logic node), so `parseAssign` yields a logic-right-hand-side
assignment with the cursor on `+`, and the top-level parse then returns the
absent signal instead of an Assignment with an arithmetic right-hand side. -/
theorem C3_counterexample :
    (parse assignIdentArithToks).1 = none ∧
    (parseAssign 20 (initState assignIdentArithToks)).1 =
      some ⟨.final .Ident "x", none, .Assign, some (.cmp ⟨none, none, none, "y"⟩)⟩ ∧
    (curTok (parseAssign 20 (initState assignIdentArithToks)).2).kind = .plus :=
  ⟨rfl, rfl, rfl⟩

/-- C3, amended: for `=` the parser trial-parses the right-hand side as a
logic expression and falls back to an arithmetic expression only when that
trial fails, restoring the cursor in between.  `x = y && z ;` yields an
Assignment whose right-hand side is a logic node, but `x = y + z ;` does not
yield an arithmetic node — the trial succeeds on the bare identifier `y` and
the parse aborts at `+` (see the counterexample).  When the trial does fail,
the fallback produces an arithmetic right-hand side regardless of the
expression's first token: both `x = 1 + 2 ;` and the parenthesis-initial
`x = ( 1 ) ;` yield Assignments with arithmetic right-hand sides. -/
theorem C3_amended :
    (parse assignLogicToks).1 = some ⟨[.assign ⟨.final .Ident "x", none, .Assign,
      some (.logical (.cmp ⟨none, none, none, "y"⟩) (.cmp ⟨none, none, none, "z"⟩) .And)⟩]⟩ ∧
    (parse assignNumArithToks).1 = some ⟨[.assign ⟨.final .Ident "x",
      some (.binary .Plus (.final .Number "1") (.final .Number "2")), .Assign, none⟩]⟩ ∧
    (parse assignParenToks).1 = some ⟨[.assign ⟨.final .Ident "x",
      some (.final .Number "1"), .Assign, none⟩]⟩ :=
  ⟨rfl, rfl, rfl⟩

/-- C4, counterexample: `int a , b = 1 ;` parses successfully to a
Declaration with two names but a single initializer, so the initializer
sequence length can be strictly between zero and the name count, refuting
the `0 or exactly equal` invariant. -/
theorem C4_counterexample :
    (parseIntDec 20 (initState intTwoVarsOneInitToks)).1 =
      some ⟨["a", "b"], [.arith (.final .Number "1")]⟩ :=
  rfl

/-- C4, amended: the parser enforces only the upper bound: every Declaration
returned by `parseIntDec` or `parseBoolDec` has at most as many initializers
as declared names (more initializers than names is a hard error); the two
concrete behaviors of the claim hold: `int a,b = 1,2;` succeeds with two
paired initializers and `int a,b = 1,2,3;` fails with a diagnostic and the
absent signal. -/
theorem C4_amended :
    (∀ (fuel : Nat) (st : PState) (d : Declaration) (st' : PState),
      parseIntDec fuel st = (some d, st') → d.values.length ≤ d.vars.length) ∧
    (∀ (fuel : Nat) (st : PState) (d : Declaration) (st' : PState),
      parseBoolDec fuel st = (some d, st') → d.values.length ≤ d.vars.length) ∧
    (parseIntDec 20 (initState intTwoVarsTwoInitsToks)).1 =
      some ⟨["a", "b"], [.arith (.final .Number "1"), .arith (.final .Number "2")]⟩ ∧
    ((parseIntDec 20 (initState intTwoVarsThreeInitsToks)).1 = none ∧
      1 ≤ (parseIntDec 20 (initState intTwoVarsThreeInitsToks)).2.diags) :=
  ⟨parseIntDec_le, parseBoolDec_le, rfl, rfl, by decide⟩

/-- C4, witness: the amended bound applied to the concrete accepted input
`int a , b = 1 , 2 ;`. -/
theorem C4_witness :
    (⟨["a", "b"], [.arith (.final .Number "1"), .arith (.final .Number "2")]⟩ :
        Declaration).values.length ≤
      (⟨["a", "b"], [.arith (.final .Number "1"), .arith (.final .Number "2")]⟩ :
        Declaration).vars.length :=
  C4_amended.1 20 (initState intTwoVarsTwoInitsToks)
    ⟨["a", "b"], [.arith (.final .Number "1"), .arith (.final .Number "2")]⟩
    (parseIntDec 20 (initState intTwoVarsTwoInitsToks)).2 (by rfl)

/-- C5: the exponent operator is right-associative: for any literal texts
`a`, `b`, `c`, the input `a ^ b ^ c` parses to
`BinaryOp(Exp, a, BinaryOp(Exp, b, c))`, never the left-nested tree. -/
theorem C5_exp_right_assoc : ∀ a b c : String,
    (parseFactor 10 (initState [⟨.number, a⟩, ⟨.exp, "^"⟩, ⟨.number, b⟩, ⟨.exp, "^"⟩,
      ⟨.number, c⟩, ⟨.semicolon, ";"⟩])).1 =
      some (.binary .Exp (.final .Number a)
        (.binary .Exp (.final .Number b) (.final .Number c))) := by
  intro a b c
  rfl

/-- C6: evaluating the code at the failing input `1 == 2`: the parser
produces the relational Comparison form with both operands present, but the
node's stored operator is not the parsed `Equal` operator — the constructor
`Comparison::Comparison` initializes its `Op` member from itself and drops
the `Opm` parameter, so the stored operator is indeterminate (`none` in this
embedding), never the relational operator the claim requires. -/
theorem C6_operator_not_stored :
    (parseComparison 20 (initState cmpRelToks)).1 =
      some (.cmp ⟨some (.final .Number "1"), some (.final .Number "2"), none, ""⟩) :=
  rfl

/-- C7, counterexample: on `x ++ -= 3 ;` the trial unary parse succeeds but
the next token is not the statement terminator; the claim requires the
parser to restore the snapshot and parse an Assignment from there — and
indeed `parseAssign` at that position yields a complete Assignment followed
by the terminator — yet the code reports an error and aborts the whole
parse. -/
theorem C7_counterexample :
    (parse unaryThenCompoundToks).1 = none ∧
    (parseAssign 20 (initState unaryThenCompoundToks)).1 =
      some ⟨.unary .Plus_plus "x", some (.final .Number "3"), .Minus_assign, none⟩ ∧
    (curTok (parseAssign 20 (initState unaryThenCompoundToks)).2).kind = .semicolon :=
  ⟨rfl, rfl, rfl⟩

/-- C7, amended: the statement loop restores the snapshot and parses an
Assignment only when the trial unary parse fails; when the unary statement
parses but is not followed by the terminator, the parse aborts with a
diagnostic instead of backtracking.  Concretely: `x ++ ;` yields a unary
statement, `x = 1 ;` backtracks from the failed unary trial into an
Assignment, and `x ++ -= 3 ;` aborts with a diagnostic. -/
theorem C7_amended :
    (parse unaryStmtToks).1 = some ⟨[.unaryStmt .Plus_plus "x"]⟩ ∧
    (parse assignSimpleToks).1 =
      some ⟨[.assign ⟨.final .Ident "x", some (.final .Number "1"), .Assign, none⟩]⟩ ∧
    ((parse unaryThenCompoundToks).1 = none ∧
      1 ≤ (parse unaryThenCompoundToks).2.diags) :=
  ⟨rfl, rfl, rfl, by decide⟩

/-- C8: after a successful `parseIf` the recorded `haveElse` signal tells
the statement loop exactly whether the trailing block terminator is still
current: if `haveElse` is set (an `else` was parsed) the current token is
the `end` the loop will advance past, and if it is clear the if-statement
already consumed its terminator (the token before the cursor is `end`).
Concretely, both an if-without-else and an if-with-else followed by a
declaration parse to a two-statement Program. -/
theorem C8_terminator :
    (∀ (fuel : Nat) (st0 : PState) (i : IfStmtNode) (st' : PState),
      parseIf fuel st0 = (some i, st') →
      (st'.haveElse = true → (curTok st').kind = .KW_end) ∧
      (st'.haveElse = false → prevIsEnd st')) ∧
    (parse ifNoElseToks).1 =
      some ⟨[.ifS ⟨.cmp ⟨none, none, none, "true"⟩, [], [], []⟩, .decl ⟨["b"], []⟩]⟩ ∧
    (parse ifElseToks).1 =
      some ⟨[.ifS ⟨.cmp ⟨none, none, none, "true"⟩, [], [], []⟩, .decl ⟨["b"], []⟩]⟩ :=
  ⟨parseIf_terminator, rfl, rfl⟩

/-- C8, witness: applied to the concrete if-with-else input, whose `parseIf`
leaves `haveElse` set and the block terminator current. -/
theorem C8_witness : (curTok (parseIf 30 (initState ifElseToks)).2).kind = .KW_end :=
  (C8_terminator.1 30 (initState ifElseToks)
    ⟨.cmp ⟨none, none, none, "true"⟩, [], [], []⟩
    (parseIf 30 (initState ifElseToks)).2 (by rfl)).1 (by rfl)

/-- C9, counterexample: the claim says `+ ( expression )` is accepted as a
`Final`, but the `plus` case of `parseFinal` accepts only a numeric literal
after the sign: on `+ ( 5 ) ;` it returns the absent signal. -/
theorem C9_counterexample : (parseFinal 20 (initState plusParenToks)).1 = none :=
  rfl

/-- C9, amended: `Final` resolves, in order: a numeric literal; an
identifier folded with an immediately following `++`/`--` into a UnaryOp;
after a leading `-`, a signed numeric literal or a parenthesized-and-negated
sub-expression; after a leading `+`, only a signed numeric literal (a
parenthesized sub-expression is rejected); or a fully parenthesized
expression. -/
theorem C9_amended :
    (parseFinal 20 (initState [⟨.number, "9"⟩, ⟨.semicolon, ";"⟩])).1 =
      some (.final .Number "9") ∧
    (parseFinal 20 (initState unaryStmtToks)).1 = some (.unary .Plus_plus "x") ∧
    (parseFinal 20 (initState [⟨.minus, "-"⟩, ⟨.number, "5"⟩, ⟨.semicolon, ";"⟩])).1 =
      some (.signed .Minus "5") ∧
    (parseFinal 20 (initState [⟨.minus, "-"⟩, ⟨.l_paren, "("⟩, ⟨.number, "1"⟩, ⟨.plus, "+"⟩,
      ⟨.number, "2"⟩, ⟨.r_paren, ")"⟩, ⟨.semicolon, ";"⟩])).1 =
      some (.neg (.binary .Plus (.final .Number "1") (.final .Number "2"))) ∧
    (parseFinal 20 (initState [⟨.plus, "+"⟩, ⟨.number, "5"⟩, ⟨.semicolon, ";"⟩])).1 =
      some (.signed .Plus "5") ∧
    (parseFinal 20 (initState [⟨.l_paren, "("⟩, ⟨.number, "7"⟩, ⟨.r_paren, ")"⟩,
      ⟨.semicolon, ";"⟩])).1 = some (.final .Number "7") ∧
    (parseFinal 20 (initState plusParenToks)).1 = none :=
  ⟨rfl, rfl, rfl, rfl, rfl, rfl, rfl⟩

/-- C10: when the first token of a comparison is a bare identifier,
`parseComparison` immediately returns the identifier-as-boolean form with
no operands, advancing exactly one token — for any fuel, any cursor state
and any following tokens — and consequently every Comparison node built in
the relational form (left operand present) starts at a non-identifier
token; in particular `x == 5` yields the identifier form with `==` left
unconsumed. -/
theorem C10_ident_comparison :
    (∀ (f : Nat) (st : PState), (curTok st).kind = .ident →
      parseComparison (f + 1) st =
        (some (.cmp (mkComparison none none .Ident (curTok st).text)), advance st)) ∧
    (∀ (f : Nat) (st : PState) (c : ComparisonNode) (st' : PState),
      parseComparison f st = (some (.cmp c), st') → c.left.isSome = true →
      (curTok st).kind ≠ .ident) ∧
    (parseComparison 20 (initState identEqNumToks)).1 =
      some (.cmp ⟨none, none, none, "x"⟩) :=
  ⟨parseComparison_ident_step, parseComparison_rel_not_ident, rfl⟩

/-- C10, witness: the identifier short-circuit applied to the concrete
comparison `x == 5`. -/
theorem C10_witness :
    parseComparison (19 + 1) (initState identEqNumToks) =
      (some (.cmp (mkComparison none none .Ident (curTok (initState identEqNumToks)).text)),
        advance (initState identEqNumToks)) :=
  C10_ident_comparison.1 19 (initState identEqNumToks) (by rfl)

end CompilerProj
